import Mathlib

/-! Shallow embedding of the detective-game repository's pure core:
emotion-tag parsing (src/ai_handler.py), the character database and prompt
builder (src/game_data.py), game state with JSON save/load (src/game_state.py),
and the per-suspect chat bookkeeping and retry loop of the AI engine
(src/ai_handler.py).  Python strings are modelled as lists of characters,
Python dicts as association lists in insertion order, raised exceptions as
`Except` errors. -/

/-- Python strings are modelled as lists of characters. -/
abbrev Str := List Char

/-- Whitespace for Python `str.strip` and the regex class `\s`
(ASCII: space, tab, newline, carriage return, vertical tab, form feed). -/
def isPySpace (c : Char) : Bool :=
  c = ' ' || c = '\t' || c = '\n' || c = '\r' || c = '\x0b' || c = '\x0c'

/-- The regex class `\d` (ASCII digits). -/
def isPyDigit (c : Char) : Bool :=
  '0' ≤ c && c ≤ '9'

/-- The regex class `["\x27]` (double or single quote). -/
def isQuoteChar (c : Char) : Bool :=
  c = '\x22' || c = '\x27'

/-- Python `str.lstrip()`. -/
def pyLStrip (s : Str) : Str := s.dropWhile isPySpace

/-- Python `str.rstrip()`. -/
def pyRStrip (s : Str) : Str := (s.reverse.dropWhile isPySpace).reverse

/-- Python `str.strip()`. -/
def pyStrip (s : Str) : Str := pyRStrip (pyLStrip s)

/-- Match the regex tail `\d+\x7d` (one or more digits then a closing brace)
at the head of the list; returns the remainder after the brace.  The greedy
`\d+` cannot backtrack usefully because a digit is never a brace. -/
def matchDigitsBrace (l : Str) : Option Str :=
  if (l.takeWhile isPyDigit).isEmpty then none
  else
    match l.dropWhile isPyDigit with
    | c :: rest => if c = '\x7d' then some rest else none
    | [] => none

/-- Head-match of the first artifact regex of `parse_emotion_tag`
(ai_handler.py line 88): an opening brace, a quoted equals sign in single
quotes, a star, digits, a closing brace. -/
def matchArtifact1 : Str → Option Str
  | a :: b :: c :: d :: e :: rest =>
    if a = '\x7b' && b = '\x27' && c = '=' && d = '\x27' && e = '*' then
      matchDigitsBrace rest
    else none
  | _ => none

/-- Head-match of the second artifact regex of `parse_emotion_tag`
(ai_handler.py line 89): like `matchArtifact1` but each quote may be single
or double. -/
def matchArtifact2 : Str → Option Str
  | a :: b :: c :: d :: e :: rest =>
    if a = '\x7b' && isQuoteChar b && c = '=' && isQuoteChar d && e = '*' then
      matchDigitsBrace rest
    else none
  | _ => none

/-- Python `re.sub(pattern, "", s)`: scan left to right; at each position, if
the pattern matches there, delete the match and continue after it, else keep
the character.  `m` matches the pattern at the head of its argument and
returns the remainder; the fuel (instantiated with the list length, enough
because every artifact match consumes at least one character) makes the
recursion structural. -/
def pySubAux (m : Str → Option Str) : Nat → Str → Str
  | 0, l => l
  | _ + 1, [] => []
  | fuel + 1, c :: cs =>
    match m (c :: cs) with
    | some rest => pySubAux m fuel rest
    | none => c :: pySubAux m fuel cs

/-- Python `re.sub(pattern, "", s)` for a head-matcher `m`. -/
def pySub (m : Str → Option Str) (l : Str) : Str :=
  pySubAux m l.length l

/-- The artifact-cleaning prefix of `parse_emotion_tag` (ai_handler.py
lines 88-90): remove both artifact patterns, then strip. -/
def cleanArtifacts (s : Str) : Str :=
  pySub matchArtifact2 (pySub matchArtifact1 s)

/-- Split a list at its first right bracket: `some (b, a)` when
`l = b ++ ']' :: a` with no right bracket in `b`, `none` when `l` has no
right bracket.  This is how the greedy `[^\]]+\]` consumes text after an
opening bracket. -/
def splitAtRBracket : Str → Option (Str × Str)
  | [] => none
  | c :: cs =>
    if c = ']' then some ([], cs)
    else
      match splitAtRBracket cs with
      | some (b, a) => some (c :: b, a)
      | none => none

theorem splitAtRBracket_decomp {l b a : Str} (h : splitAtRBracket l = some (b, a)) :
    l = b ++ ']' :: a ∧ ']' ∉ b := by
  induction l generalizing b with
  | nil => simp [splitAtRBracket] at h
  | cons c cs ih =>
    by_cases hc : c = ']'
    · subst hc
      simp [splitAtRBracket] at h
      obtain ⟨rfl, rfl⟩ := h
      simp
    · simp only [splitAtRBracket, if_neg hc] at h
      cases hsp : splitAtRBracket cs with
      | none => rw [hsp] at h; exact absurd h (by simp)
      | some pr =>
        obtain ⟨b0, a0⟩ := pr
        rw [hsp] at h
        simp at h
        obtain ⟨rfl, rfl⟩ := h
        obtain ⟨hdec, hmem⟩ := ih hsp
        constructor
        · simp [hdec]
        · simp [hmem]
          exact fun hcc => hc hcc.symm

theorem splitAtRBracket_none {l : Str} (h : splitAtRBracket l = none) : ']' ∉ l := by
  induction l with
  | nil => simp
  | cons c cs ih =>
    by_cases hc : c = ']'
    · subst hc; simp [splitAtRBracket] at h
    · simp only [splitAtRBracket, if_neg hc] at h
      cases hsp : splitAtRBracket cs with
      | none =>
        simp only [List.mem_cons]
        rintro (rfl | hm)
        · exact hc rfl
        · exact ih hsp hm
      | some pr => rw [hsp] at h; cases h

theorem splitAtRBracket_length {l b a : Str} (h : splitAtRBracket l = some (b, a)) :
    a.length < l.length := by
  have := (splitAtRBracket_decomp h).1
  subst this
  simp
  omega

/-- Match of the tail `\s*["\x27]?\s*` against the remainder of the input:
optional whitespace, at most one quote, optional whitespace, then the end.
(The dollar anchor is the end of the input: `parse_emotion_tag` applies this
search to an already stripped string, which has no trailing newline.) -/
def matchesEndSuffix (l : Str) : Bool :=
  match l.dropWhile isPySpace with
  | [] => true
  | c :: cs => isQuoteChar c && (cs.dropWhile isPySpace).isEmpty

/-- Leftmost match of pattern 1 of `parse_emotion_tag` (ai_handler.py
line 99), the end-anchored tag regex: returns `some (p, t)` where `t` is the
captured tag text and `p` the text before the match (the match itself
extends to the end of the input). -/
def findEndTag : Str → Option (Str × Str)
  | [] => none
  | c :: cs =>
    let skip : Option (Str × Str) :=
      match findEndTag cs with
      | some (p, t) => some (c :: p, t)
      | none => none
    if c = '[' then
      match splitAtRBracket cs with
      | some (tag, rest) =>
        if !tag.isEmpty && matchesEndSuffix rest then some ([], tag) else skip
      | none => skip
    else skip

/-- All non-overlapping matches of pattern 2 of `parse_emotion_tag`
(ai_handler.py line 104), scanning left to right as `re.finditer` does;
returns the LAST match as `some (b, t, a)`: text before the match, the
captured tag, text after the match. -/
def findLastTag : Str → Option (Str × Str × Str)
  | [] => none
  | c :: cs =>
    if c = '[' then
      match hsp : splitAtRBracket cs with
      | some (tag, rest) =>
        if tag.isEmpty then
          match findLastTag cs with
          | some (b, t, a) => some (c :: b, t, a)
          | none => none
        else
          match findLastTag rest with
          | some (b, t, a) => some ('[' :: (tag ++ ']' :: b), t, a)
          | none => some ([], tag, rest)
      | none =>
        match findLastTag cs with
        | some (b, t, a) => some (c :: b, t, a)
        | none => none
    else
      match findLastTag cs with
      | some (b, t, a) => some (c :: b, t, a)
      | none => none
termination_by l => l.length
decreasing_by
  all_goals first
    | (have hlen := splitAtRBracket_length hsp; simp; omega)
    | simp

/-- A raised Python exception: the exception type name and its message. -/
structure PyErr where
  kind : Str
  msg : Str
deriving DecidableEq

/-- Python dict lookup on an association list in insertion order. -/
def alookup {κ α : Type} [DecidableEq κ] (k : κ) : List (κ × α) → Option α
  | [] => none
  | (k0, v) :: rest => if k0 = k then some v else alookup k rest

/-- Python `str(i)` for an int (decimal, minus sign for negatives). -/
def intToStr (i : Int) : Str := (toString i).data

/-- Python `str(n)` for a non-negative int. -/
def natToStr (n : Nat) : Str := (toString n).data

/-- One character record of character_database.json, with the fields read by
game_data.py.  `name` and `role` are accessed by direct indexing in the
source (schema-required); every other field is read with `.get` and a
default, so a missing field is modelled by the default itself (`""` for
strings, `[]` for lists/dicts). -/
structure Character where
  name : Str
  role : Str
  identity_core : Str
  psychological_shadow : Str
  inner_conflict : Str
  identity_lens : Str
  core_philosophy : Str
  dialogue_style : Str
  forbidden_lines : List Str
  interview_modes : List Str
  relationships : List (Str × Str)
  sub_narratives : List Str
  secret_lore : Str
  signature_line : Str
  emotion_mapping : List (Str × Str)
deriving DecidableEq

/-- The `core_rules` object of character_database.json, with the fields read
by game_data.py.  `interrogation_context` is a JSON object of string values;
its Python truthiness is non-emptiness. -/
structure CoreRules where
  non_breakable_ruleset : Str
  core_narrative : Str
  interrogation_context : List (Str × Str)
  forbidden_behaviors : List Str
  allowed_behaviors : List Str
  final_purpose : Str
deriving DecidableEq

/-- The loaded character database (game_data.CharacterDatabase after
`_load_database`): the core rules and the characters table keyed by the
string form of the suspect id. -/
structure CharacterDatabase where
  core_rules : CoreRules
  characters : List (Str × Character)
deriving DecidableEq

/-- game_state.get_default_emotion: a dict lookup with `.get(id, "other")`. -/
def get_default_emotion (suspect_id : Int) : Str :=
  if suspect_id = 1 then "scared".data
  else if suspect_id = 2 then "other".data
  else if suspect_id = 3 then "happy".data
  else if suspect_id = 4 then "other".data
  else if suspect_id = 5 then "angry".data
  else if suspect_id = 6 then "scared".data
  else "other".data

/-- The ValueError raised by game_data.py for an unknown suspect id. -/
def invalidSuspectErr (suspect_id : Int) : PyErr :=
  ⟨"ValueError".data, "Invalid suspect_id: ".data ++ intToStr suspect_id⟩

/-- game_data.CharacterDatabase.get_emotion_mapping: raises ValueError when
`str(suspect_id)` is not a key of the characters table, else returns the
character's `emotion_mapping` dict (default `{}` via `.get`). -/
def get_emotion_mapping (db : CharacterDatabase) (suspect_id : Int) :
    Except PyErr (List (Str × Str)) :=
  match alookup (intToStr suspect_id) db.characters with
  | none => .error (invalidSuspectErr suspect_id)
  | some ch => .ok ch.emotion_mapping

/-- game_data.CharacterDatabase.map_emotion_to_image: strip the tag, return
`(mapping[tag], True)` when the tag is a key of the mapping, else
`(mapping.get("default", "other.jpg"), False)`. -/
def map_emotion_to_image (db : CharacterDatabase) (suspect_id : Int) (emotion_tag : Str) :
    Except PyErr (Str × Bool) :=
  match get_emotion_mapping db suspect_id with
  | .error e => .error e
  | .ok mapping =>
    let tag := pyStrip emotion_tag
    match alookup tag mapping with
    | some img => .ok (img, true)
    | none => .ok ((alookup "default".data mapping).getD "other.jpg".data, false)

/-- ai_handler.parse_emotion_tag: clean formatting artifacts and strip, then
look for a bracketed tag at the very end (pattern 1) and otherwise for the
last bracketed tag anywhere (pattern 2); on a match, strip the captured tag,
remove the matched span from the text, and map the tag through
`map_emotion_to_image`; with no match, fall back to the emotion mapping's
"default" entry (or "other.jpg") and the tag name "default" (the source also
calls game_state.get_default_emotion there and discards the result, a
side-effect-free call).  Returns `(image_filename, cleaned_response,
emotion_tag)`. -/
def parse_emotion_tag (db : CharacterDatabase) (suspect_id : Int) (response : Str) :
    Except PyErr (Str × Str × Str) :=
  match (match findEndTag (pyStrip (cleanArtifacts response)) with
         | some (p, t) => some (p, t, ([] : Str))
         | none => findLastTag (pyStrip (cleanArtifacts response))) with
  | some (before, tagRaw, after) =>
    match map_emotion_to_image db suspect_id (pyStrip tagRaw) with
    | .error e => .error e
    | .ok (image_filename, _is_valid) =>
      .ok (image_filename, pyStrip (before ++ after), pyStrip tagRaw)
  | none =>
    match get_emotion_mapping db suspect_id with
    | .error e => .error e
    | .ok mapping =>
      .ok ((alookup "default".data mapping).getD "other.jpg".data,
           pyStrip (cleanArtifacts response), "default".data)

/-- ai_handler.clean_response calls `parse_emotion_tag(response)` with only
one of its two required positional arguments: Python raises TypeError at the
call, before the body runs. -/
def parse_emotion_tag_called_with_one_arg (response : Str) :
    Except PyErr (Str × Str × Str) :=
  let _ := response
  .error ⟨"TypeError".data,
    "parse_emotion_tag() missing 1 required positional argument: ".data
      ++ "\x27suspect_id\x27".data⟩

/-- Unpacking a 3-tuple into two targets always raises ValueError in Python. -/
def unpackTripleIntoPair {α β γ : Type} (t : α × β × γ) : Except PyErr (α × β) :=
  let _ := t
  .error ⟨"ValueError".data, "too many values to unpack (expected 2)".data⟩

/-- ai_handler.clean_response (lines 147-150): `_, cleaned =
parse_emotion_tag(response)` then `return cleaned`. -/
def clean_response (response : Str) : Except PyErr Str :=
  match parse_emotion_tag_called_with_one_arg response with
  | .error e => .error e
  | .ok t =>
    match unpackTripleIntoPair t with
    | .error e => .error e
    | .ok (_, cleaned) => .ok cleaned

/-- A value of the notebook "day" field: an int day number, or the string
"Final" after the final page is created (game_state.py). -/
inductive DayVal where
  | num (n : Int)
  | final
deriving DecidableEq

/-- One notebook page: `{"day": ..., "content": ...}`. -/
structure Page where
  day : DayVal
  content : Str
deriving DecidableEq

/-- JSON values, as produced by `json.dump`/`json.load` for the save file.
Numbers are modelled as ints (the game only ever saves ints). -/
inductive Json where
  | null
  | bool (b : Bool)
  | num (n : Int)
  | str (s : Str)
  | arr (elems : List Json)
  | obj (fields : List (Str × Json))

/-- game_state.GameState: the serializable record.  `save_file` is the
constant file name and is itself never saved or loaded. -/
structure GameState where
  current_day : DayVal
  notebook_pages : List Page
  game_ended : Bool
  win_state : Str
  intro_shown : Bool
  case_files_text : Str
  save_file : Str
deriving DecidableEq

/-- game_state.GameState.__init__. -/
def GameState.initial : GameState :=
  { current_day := .num 1
    notebook_pages := [⟨.num 1, []⟩]
    game_ended := false
    win_state := []
    intro_shown := false
    case_files_text := []
    save_file := "savegame.json".data }

/-- game_state.GameState.reset: back to the initial values (the save file
name is untouched). -/
def GameState.reset (gs : GameState) : GameState :=
  { gs with
    current_day := .num 1
    notebook_pages := [⟨.num 1, []⟩]
    game_ended := false
    win_state := []
    intro_shown := false
    case_files_text := [] }

/-- game_state.GameState.advance_day: `current_day += 1` then append a blank
page for the new day and return the new day number.  When `current_day` is
the string "Final", the `+=` raises TypeError before any mutation. -/
def GameState.advance_day (gs : GameState) : Except PyErr (GameState × Int) :=
  match gs.current_day with
  | .num n =>
    .ok ({ gs with
            current_day := .num (n + 1)
            notebook_pages := gs.notebook_pages ++ [⟨.num (n + 1), []⟩] },
         n + 1)
  | .final =>
    .error ⟨"TypeError".data, "can only concatenate str (not \x22int\x22) to str".data⟩

/-- The page filter of game_state.GameState.get_current_page:
`page["day"] == self.current_day or page["day"] == "Final"`. -/
def pageMatches (current : DayVal) (p : Page) : Bool :=
  p.day == current || p.day == DayVal.final

/-- game_state.GameState.get_current_page: first page whose day equals the
current day or is "Final"; otherwise the last page, or a fresh
`{"day": 1, "content": ""}` when the page list is empty. -/
def GameState.get_current_page (gs : GameState) : Page :=
  match gs.notebook_pages.find? (pageMatches gs.current_day) with
  | some p => p
  | none => gs.notebook_pages.getLast?.getD ⟨.num 1, []⟩

/-- Replace the content of the first page satisfying `f` (Python mutates the
dict that `get_current_page` returned, which aliases this entry). -/
def updateFirstMatch (f : Page → Bool) (c : Str) : List Page → List Page
  | [] => []
  | p :: rest =>
    if f p then { p with content := c } :: rest else p :: updateFirstMatch f c rest

/-- Replace the content of the last page (the fallback dict returned by
`get_current_page` when no page matches is the list's last entry; with an
empty list the fallback is a fresh dict and mutating it has no effect). -/
def updateLast (c : Str) : List Page → List Page
  | [] => []
  | [p] => [{ p with content := c }]
  | p :: rest => p :: updateLast c rest

/-- game_state.GameState.update_current_page: set the content of the page
`get_current_page` returns. -/
def GameState.update_current_page (gs : GameState) (content : Str) : GameState :=
  if (gs.notebook_pages.find? (pageMatches gs.current_day)).isSome then
    { gs with notebook_pages := updateFirstMatch (pageMatches gs.current_day) content gs.notebook_pages }
  else
    { gs with notebook_pages := updateLast content gs.notebook_pages }

/-- game_state.GameState.create_final_page: do nothing when a "Final" page
already exists; otherwise append one and set `current_day` to "Final". -/
def GameState.create_final_page (gs : GameState) : GameState :=
  if gs.notebook_pages.any (fun p => p.day == DayVal.final) then gs
  else
    { gs with
      notebook_pages := gs.notebook_pages ++ [⟨.final, []⟩]
      current_day := .final }

/-- JSON encoding of a day value, as `json.dump` writes it. -/
def encodeDay : DayVal → Json
  | .num n => .num n
  | .final => .str "Final".data

/-- JSON encoding of a notebook page. -/
def encodePage (p : Page) : Json :=
  .obj [("day".data, encodeDay p.day), ("content".data, .str p.content)]

/-- game_state.GameState.save: the JSON document written to the save file
(the six serialized fields, in source order). -/
def GameState.save (gs : GameState) : Json :=
  .obj [("current_day".data, encodeDay gs.current_day),
        ("notebook_pages".data, .arr (gs.notebook_pages.map encodePage)),
        ("game_ended".data, .bool gs.game_ended),
        ("win_state".data, .str gs.win_state),
        ("intro_shown".data, .bool gs.intro_shown),
        ("case_files_text".data, .str gs.case_files_text)]

/-- The on-disk situation `load` can face: no file, a file that is not valid
JSON, or a parsed JSON value. -/
inductive SaveFile where
  | missing
  | corrupt
  | parsed (j : Json)

/-- `dict.get(k, d)` on a JSON object's field list. -/
def jsonGet (fields : List (Str × Json)) (k : Str) (d : Json) : Json :=
  (alookup k fields).getD d

/-- Decode the "current_day" field.  `save` only ever writes `Json.num n` or
`Json.str "Final"`; Python stores any other JSON value verbatim
(dynamically typed), which the typed model collapses to day 1 — no saved
file contains such a value and no claim depends on one. -/
def decodeDay : Json → DayVal
  | .num n => .num n
  | .str s => if s = "Final".data then .final else .num 1
  | _ => .num 1

/-- Decode one notebook page (same typed-model caveat as `decodeDay`). -/
def decodePage : Json → Page
  | .obj fields =>
    { day := decodeDay (jsonGet fields "day".data (.num 1))
      content :=
        match jsonGet fields "content".data (.str []) with
        | .str s => s
        | _ => [] }
  | _ => ⟨.num 1, []⟩

/-- Decode the "notebook_pages" field (same typed-model caveat). -/
def decodePages : Json → List Page
  | .arr elems => elems.map decodePage
  | _ => [⟨.num 1, []⟩]

/-- Decode a boolean field (same typed-model caveat). -/
def decodeBool : Json → Bool
  | .bool b => b
  | _ => false

/-- Decode a string field (same typed-model caveat). -/
def decodeStr : Json → Str
  | .str s => s
  | _ => []

/-- game_state.GameState.load: returns False when the file does not exist;
otherwise parse it — a parse failure is caught and returns False; a parsed
non-object value makes `data.get` raise AttributeError before any field is
assigned, also caught and returning False; a parsed object assigns the six
fields with `.get` defaults and returns True. -/
def GameState.load (file : SaveFile) (gs : GameState) : Bool × GameState :=
  match file with
  | .missing => (false, gs)
  | .corrupt => (false, gs)
  | .parsed (.obj fields) =>
    (true,
     { gs with
       current_day := decodeDay (jsonGet fields "current_day".data (.num 1))
       notebook_pages :=
         decodePages (jsonGet fields "notebook_pages".data
           (.arr [.obj [("day".data, .num 1), ("content".data, .str [])]]))
       game_ended := decodeBool (jsonGet fields "game_ended".data (.bool false))
       win_state := decodeStr (jsonGet fields "win_state".data (.str []))
       intro_shown := decodeBool (jsonGet fields "intro_shown".data (.bool false))
       case_files_text := decodeStr (jsonGet fields "case_files_text".data (.str [])) })
  | .parsed _ => (false, gs)

/-- Insert or replace a key in a Python dict modelled as an association list
(replacement keeps the entry's position, insertion appends, matching dict
insertion-order semantics). -/
def upsert {κ α : Type} [DecidableEq κ] (k : κ) (v : α) : List (κ × α) → List (κ × α)
  | [] => [(k, v)]
  | (k0, v0) :: rest => if k0 = k then (k, v) :: rest else (k0, v0) :: upsert k v rest

/-- Python `del d[k]` guarded by `if k in d` (removes the entry with that
key; a missing key leaves the dict unchanged; a dict never holds a key
twice, so removing every entry with the key is the same operation). -/
def removeKey {κ α : Type} [DecidableEq κ] (k : κ) : List (κ × α) → List (κ × α)
  | [] => []
  | (k0, v0) :: rest => if k0 = k then removeKey k rest else (k0, v0) :: removeKey k rest

/-- One chat message (`{"role": ..., "content": ...}`). -/
structure ChatMessage where
  role : Str
  content : Str
deriving DecidableEq

/-- The per-suspect conversation object of Ollama mode: a SimpleChatEngine
holding the character's system prompt and its ChatMemoryBuffer.  The
engine-internal effect of one chat call is SDK code, kept abstract: the
claims only concern which suspect's object is created, read and stored. -/
structure ChatEngine where
  system_prompt : Str
  memory : List ChatMessage
deriving DecidableEq

/-- The mutable per-suspect state of ai_handler.AIDetectiveEngine:
`chat_engines` (Ollama mode) and `api_chat_histories` (API mode), both
dicts keyed by suspect id. -/
structure EngineState where
  chat_engines : List (Int × ChatEngine)
  api_chat_histories : List (Int × List ChatMessage)
deriving DecidableEq

/-- AIDetectiveEngine.__init__: both dicts start empty. -/
def EngineState.initial : EngineState := ⟨[], []⟩

/-- ai_handler.AIDetectiveEngine._get_suspect_persona: the database prompt,
or the minimal fallback prompt when building it raises. -/
def get_persona (db : CharacterDatabase) (suspect_id : Int) (prompt : Int → Except PyErr Str) : Str :=
  let _ := db
  match prompt suspect_id with
  | .ok s => s
  | .error _ => "You are a suspect in a murder investigation. Answer carefully.".data

/-- The retry loop of `_get_suspect_response_ollama` (ai_handler.py lines
717-744): `max_retries = 3`, `backoff = 1.0`; try the chat call; on failure
sleep `backoff` seconds and double it while attempts remain, else re-raise.
`attempt i` is the outcome of the i-th chat call; the result pairs the loop's
outcome with the list of sleep durations in seconds (floats 1.0 and 2.0 are
exact, modelled as naturals). -/
def retryLoop {E A : Type} (attempt : Nat → Except E A) (max_retries : Nat) :
    Nat → Nat → Except E A × List Nat
  | i, backoff =>
    match attempt i with
    | .ok a => (.ok a, [])
    | .error e =>
      if i < max_retries - 1 then
        let r := retryLoop attempt max_retries (i + 1) (backoff * 2)
        (r.1, backoff :: r.2)
      else (.error e, [])
termination_by i _ => max_retries - i
decreasing_by omega

/-- The chat call with retry, as `_get_suspect_response_ollama` performs it:
three attempts starting with a one-second backoff. -/
def chatWithRetry {E A : Type} (attempt : Nat → Except E A) : Except E A × List Nat :=
  retryLoop attempt 3 0 1

/-- The fallback string built by the outer exception handler of
ai_handler.AIDetectiveEngine.get_suspect_response (lines 536-546): the
character-acting filler with the exception type and the first 100 characters
of its message. -/
def fallback_message (e : PyErr) : Str :=
  "*شخصیت عصبی به نظر می‌رسد* من... من... (".data
    ++ e.kind ++ ": ".data ++ e.msg.take 100 ++ ")".data

/-- ai_handler.AIDetectiveEngine.get_suspect_response in Ollama mode,
viewed from its caller: run the retried chat call; any exception that
escapes the retry loop is caught by the outer handler, which returns the
fallback string instead of re-raising — so the caller always receives an
ordinary string (`.ok`), never an exception. -/
def get_suspect_response_result (attempt : Nat → Except PyErr Str) : Except PyErr Str :=
  match (chatWithRetry attempt).1 with
  | .ok r => .ok r
  | .error e => .ok (fallback_message e)

/-- ai_handler.AIDetectiveEngine._get_suspect_response_ollama, state part:
fetch this suspect's chat engine, creating it with the character's system
prompt and an empty memory on first use; run the chat call (`step`, the
SDK-internal SimpleChatEngine.chat, kept abstract) on that engine only; store
the stepped engine back under the same key.  Returns the response text and
the updated engine state. -/
def askOllama (db : CharacterDatabase) (prompt : Int → Except PyErr Str)
    (step : ChatEngine → Str → Str × ChatEngine)
    (st : EngineState) (suspect_id : Int) (question : Str) : Str × EngineState :=
  let engine :=
    match alookup suspect_id st.chat_engines with
    | some e => e
    | none => { system_prompt := get_persona db suspect_id prompt, memory := [] }
  let (response, engine') := step engine question
  (response, { st with chat_engines := upsert suspect_id engine' st.chat_engines })

/-- The history cap of `_get_suspect_response_api` (lines 602-604): when the
history exceeds 20 messages keep only the last 20 (`chat_history[-20:]`). -/
def trimHistory (l : List ChatMessage) : List ChatMessage :=
  if l.length > 20 then l.drop (l.length - 20) else l

/-- ai_handler.AIDetectiveEngine._get_suspect_response_api, state part
(lines 548-611): fetch this suspect's chat history (empty on first use),
generate the response from the system prompt, the history and the question
(`complete`, the OpenAI client call, kept abstract), append the user and
assistant messages, and store the capped history back under the suspect. -/
def askApi (db : CharacterDatabase) (prompt : Int → Except PyErr Str)
    (complete : Str → List ChatMessage → Str → Str)
    (st : EngineState) (suspect_id : Int) (question : Str) : Str × EngineState :=
  let system_prompt := get_persona db suspect_id prompt
  let chat_history := (alookup suspect_id st.api_chat_histories).getD []
  let response := complete system_prompt chat_history question
  (response,
   { st with
     api_chat_histories :=
       upsert suspect_id
         (trimHistory (chat_history ++
           [⟨"user".data, question⟩, ⟨"assistant".data, response⟩]))
         st.api_chat_histories })

/-- ai_handler.AIDetectiveEngine.reset_chat: delete this suspect's entries
from both dicts (each only if present). -/
def resetChat (st : EngineState) (suspect_id : Int) : EngineState :=
  { chat_engines := removeKey suspect_id st.chat_engines
    api_chat_histories := removeKey suspect_id st.api_chat_histories }

/-- A sequence of API-mode suspect-response calls. -/
def runApiCalls (db : CharacterDatabase) (prompt : Int → Except PyErr Str)
    (complete : Str → List ChatMessage → Str → Str)
    (st : EngineState) : List (Int × Str) → EngineState
  | [] => st
  | (suspect_id, q) :: rest =>
    runApiCalls db prompt complete (askApi db prompt complete st suspect_id q).2 rest

/-- The fixed AI-role block of game_data.get_character_system_prompt
(source lines 75-92), verbatim; the triple-quoted Python string ends with a
newline. -/
def aiRoleBlock : Str :=
  "You are an AI-driven NPC in a noir, psychological, interrogation-based narrative game.\nYou must NEVER reveal the real killer.\nYou must ALWAYS remain a valid suspect.\nYou DO NOT trust the detective.\nYou MAY lie, redirect, mislead or avoid questions completely.\nThe detective must EARN every piece of truth.\nYou speak only from YOUR character\x27s perspective.\n\nMEMORY LAYERS:\n1) Surface Answer → safe, emotionless, misleading\n2) Defensive Reaction → deny, mock, question the detective\n3) Emotional Crack → a hint of vulnerability or pain\n4) Fragment of Truth → small piece of real past, not full confession\n\nBehavior must evolve ACROSS MULTIPLE INTERROGATIONS.\nUnexpected mood shifts are allowed. (anger → calm → silence → fear)\nNever admit innocence or guilt directly.\n".data

/-- Python `sep.join(parts)`. -/
def joinSep (sep : Str) : List Str → Str
  | [] => []
  | [s] => s
  | s :: rest => s ++ sep ++ joinSep sep rest

/-- Python `enumerate(xs, i)`. -/
def enumFrom {α : Type} (i : Nat) : List α → List (Nat × α)
  | [] => []
  | a :: rest => (i, a) :: enumFrom (i + 1) rest

/-- The output-format block of game_data.get_character_system_prompt
(source lines 169-172): an f-string listing the bracketed interview modes
and an example using the first mode (or the word default when there are
none). -/
def outputFormatBlock (interview_modes : List Str) : Str :=
  "CRITICAL: End EVERY response with ONE emotion tag in brackets.\nValid emotions: ".data
    ++ joinSep ", ".data (interview_modes.map (fun m => "[".data ++ m ++ "]".data))
    ++ "\nExample: \"من... نمی‌دانم چه بگویم. [".data
    ++ (interview_modes.headD "default".data)
    ++ "]\"\nDo NOT use any other emotion tags. Do NOT copy formatting from this prompt.".data

/-- The prompt parts list built by
game_data.CharacterDatabase.get_character_system_prompt for a character, in
source order: the AI-role block, core rules and narrative, interrogation
context (when the dict is non-empty), forbidden and allowed behaviors, the
character persona fields, the character-specific forbidden lines, the
numbered interview modes, relationships, sub-narratives and secret lore
(each when truthy), the output-format block, the final purpose and the
signature line. -/
def promptParts (cr : CoreRules) (ch : Character) : List Str :=
  let interrogation := cr.interrogation_context
  let interview_modes := ch.interview_modes
  ["SYSTEM / AI ROLE:".data, aiRoleBlock]
  ++ ["\n[قوانین بازی]".data, cr.non_breakable_ruleset,
      "\n".data ++ cr.core_narrative]
  ++ (if interrogation.isEmpty then [] else
        ["\n[موقعیت بازجویی]".data,
         "کارآگاه: ".data
           ++ (alookup "detective_name".data interrogation).getD "کارآگاه".data,
         "مکان: ".data
           ++ (alookup "location".data interrogation).getD "اتاق بازجویی".data,
         "تو در مقابل کارآگاه ".data
           ++ (alookup "detective_name".data interrogation).getD []
           ++ " نشسته‌ای و بازجویی می‌شوی.".data,
         "\n[مظنونان دیگر]".data,
         "این ۶ نفر همگی مظنون هستند: ".data
           ++ (alookup "suspects_list".data interrogation).getD []])
  ++ ["\n[رفتارهای ممنوع]".data]
  ++ cr.forbidden_behaviors.map (fun b => "- ".data ++ b)
  ++ ["\n[رفتارهای مجاز]".data]
  ++ cr.allowed_behaviors.map (fun b => "- ".data ++ b)
  ++ ["\n[شخصیت شما: ".data ++ ch.name ++ " (".data ++ ch.role ++ ")]".data,
      "\n[هویت اصلی]".data, ch.identity_core,
      "\n[سایه روان‌شناختی]".data, ch.psychological_shadow,
      "\n[تضاد درونی]".data, ch.inner_conflict,
      "\n[زاویه دید]".data, ch.identity_lens,
      "\n[فلسفه اصلی]".data, ch.core_philosophy,
      "\n[سبک گفتاری]".data, ch.dialogue_style,
      "\n[جملات ممنوع برای ".data ++ ch.name ++ "]:".data]
  ++ ch.forbidden_lines.map (fun l => "- ".data ++ l)
  ++ ["\n[حالت‌های مجاز در بازجویی - فقط این ".data ++ natToStr interview_modes.length ++ " حالت]:".data]
  ++ (enumFrom 1 interview_modes).map (fun im => natToStr im.1 ++ ". ".data ++ im.2)
  ++ (if ch.relationships.isEmpty then [] else
        ["\n[روابط با دیگران]:".data]
        ++ ch.relationships.map (fun pr => "• ".data ++ pr.1 ++ ": ".data ++ pr.2))
  ++ (if ch.sub_narratives.isEmpty then [] else
        ["\n[اطلاعات پس‌زمینه]:".data]
        ++ ch.sub_narratives.map (fun n => "• ".data ++ n))
  ++ (if ch.secret_lore.isEmpty then [] else
        ["\n[راز پنهان - فقط وقتی از نظر احساسی شکسته شدی بیان کن]".data, ch.secret_lore])
  ++ ["\n[فرمت خروجی الزامی]".data, outputFormatBlock interview_modes]
  ++ ["\n".data ++ cr.final_purpose,
      "\n[جمله امضا]: \"".data ++ ch.signature_line ++ "\"".data]

/-- game_data.CharacterDatabase.get_character_system_prompt: raises
ValueError when `str(suspect_id)` is not a key of the characters table;
otherwise joins the prompt parts with newlines.  It reads the database and
never modifies it. -/
def get_character_system_prompt (db : CharacterDatabase) (suspect_id : Int) :
    Except PyErr Str :=
  match alookup (intToStr suspect_id) db.characters with
  | none => .error (invalidSuspectErr suspect_id)
  | some ch => .ok (joinSep "\n".data (promptParts db.core_rules ch))

/-- The text contains a match of the tag regex `\[[^\]]+\]`: an opening
bracket, a non-empty bracket-free interior, a closing bracket. -/
def HasTag (l : Str) : Prop :=
  ∃ p m q : Str, l = p ++ '[' :: (m ++ ']' :: q) ∧ m ≠ [] ∧ ']' ∉ m

theorem hasTag_cons {l : Str} (c : Char) (h : HasTag l) : HasTag (c :: l) := by
  obtain ⟨p, m, q, rfl, hm, hnm⟩ := h
  exact ⟨c :: p, m, q, rfl, hm, hnm⟩

theorem hasTag_append_left {l : Str} (u : Str) (h : HasTag l) : HasTag (u ++ l) := by
  induction u with
  | nil => exact h
  | cons c cs ih => exact hasTag_cons c ih

theorem hasTag_append_right {l : Str} (v : Str) (h : HasTag l) : HasTag (l ++ v) := by
  obtain ⟨p, m, q, rfl, hm, hnm⟩ := h
  exact ⟨p, m, q ++ v, by simp, hm, hnm⟩

theorem findEndTag_hasTag {l p t : Str} (h : findEndTag l = some (p, t)) : HasTag l := by
  induction l generalizing p t with
  | nil => simp [findEndTag] at h
  | cons c cs ih =>
    by_cases hc : c = '['
    · subst hc
      cases hsp : splitAtRBracket cs with
      | some pr =>
        obtain ⟨tag, rest⟩ := pr
        by_cases hcond : (!tag.isEmpty && matchesEndSuffix rest) = true
        · obtain ⟨hdec, hnm⟩ := splitAtRBracket_decomp hsp
          subst hdec
          simp at hcond
          exact ⟨[], tag, rest, rfl, by simpa using hcond.1, hnm⟩
        · simp only [findEndTag, hsp, hcond, if_neg, if_pos] at h
          cases hrec : findEndTag cs with
          | none => rw [hrec] at h; simp at h
          | some pr2 =>
            obtain ⟨p2, t2⟩ := pr2
            exact hasTag_cons _ (ih hrec)
      | none =>
        simp only [findEndTag, hsp, if_pos] at h
        cases hrec : findEndTag cs with
        | none => rw [hrec] at h; simp at h
        | some pr2 =>
          obtain ⟨p2, t2⟩ := pr2
          exact hasTag_cons _ (ih hrec)
    · simp only [findEndTag, if_neg hc] at h
      cases hrec : findEndTag cs with
      | none => rw [hrec] at h; simp at h
      | some pr2 =>
        obtain ⟨p2, t2⟩ := pr2
        exact hasTag_cons _ (ih hrec)

theorem findLastTag_hasTag {l b t a : Str} (h : findLastTag l = some (b, t, a)) :
    HasTag l := by
  induction l using findLastTag.induct generalizing b t a with
  | case1 => simp [findLastTag] at h
  | case2 cs tag rest hsp hemp b' t' a' hx ih =>
    exact hasTag_cons _ (ih hx)
  | case3 cs tag rest hsp hemp hx ih =>
    rw [findLastTag] at h
    simp only [reduceIte] at h
    split at h
    next tag' rest' heq =>
      rw [hsp] at heq
      obtain ⟨rfl, rfl⟩ : tag = tag' ∧ rest = rest' := by
        have := Option.some.inj heq
        exact ⟨congrArg Prod.fst this, congrArg Prod.snd this⟩
      simp [hemp, hx] at h
    next heq => rw [hsp] at heq; simp at heq
  | case4 cs tag rest hsp hemp b' t' a' hx ih =>
    obtain ⟨hdec, hnm⟩ := splitAtRBracket_decomp hsp
    subst hdec
    exact ⟨[], tag, rest, rfl, by simpa using hemp, hnm⟩
  | case5 cs tag rest hsp hemp hx ih =>
    obtain ⟨hdec, hnm⟩ := splitAtRBracket_decomp hsp
    subst hdec
    exact ⟨[], tag, rest, rfl, by simpa using hemp, hnm⟩
  | case6 cs hsp b' t' a' hx ih =>
    exact hasTag_cons _ (ih hx)
  | case7 cs hsp hx ih =>
    rw [findLastTag] at h
    simp only [reduceIte] at h
    split at h
    next tag' rest' heq => rw [hsp] at heq; simp at heq
    next heq => simp [hx] at h
  | case8 c cs hc b' t' a' hx ih =>
    exact hasTag_cons _ (ih hx)
  | case9 c cs hc hx ih =>
    simp only [findLastTag, hx, if_neg hc] at h
    simp at h

theorem hasTag_findLastTag_isSome {l : Str} (h : HasTag l) :
    (findLastTag l).isSome := by
  induction l using findLastTag.induct with
  | case1 =>
    obtain ⟨p, m, q, heq, hm, hnm⟩ := h
    simp at heq
  | case2 cs tag rest hsp hemp b' t' a' hx ih =>
    rw [findLastTag]
    simp only [reduceIte]
    split
    next tag' rest' heq =>
      rw [hsp] at heq
      obtain ⟨rfl, rfl⟩ : tag = tag' ∧ rest = rest' := by
        have := Option.some.inj heq
        exact ⟨congrArg Prod.fst this, congrArg Prod.snd this⟩
      simp [hemp, hx]
    next heq => rw [hsp] at heq; simp at heq
  | case3 cs tag rest hsp hemp hx ih =>
    obtain ⟨hdec, _⟩ := splitAtRBracket_decomp hsp
    rw [List.isEmpty_iff] at hemp
    subst hemp
    simp only [List.nil_append] at hdec
    subst hdec
    obtain ⟨p, m, q, heq, hm, hnm⟩ := h
    cases p with
    | nil =>
      simp only [List.nil_append, List.cons.injEq, true_and] at heq
      cases m with
      | nil => exact absurd rfl hm
      | cons mh mt =>
        simp only [List.cons_append, List.cons.injEq] at heq
        refine absurd ?_ hnm
        rw [heq.1]
        exact List.mem_cons_self mh mt
    | cons ph pt =>
      simp only [List.cons_append, List.cons.injEq] at heq
      have hcs : HasTag (']' :: rest) := ⟨pt, m, q, heq.2, hm, hnm⟩
      have := ih hcs
      rw [hx] at this
      simp at this
  | case4 cs tag rest hsp hemp b' t' a' hx ih =>
    rw [findLastTag]
    simp only [reduceIte]
    split
    next tag' rest' heq =>
      rw [hsp] at heq
      obtain ⟨rfl, rfl⟩ : tag = tag' ∧ rest = rest' := by
        have := Option.some.inj heq
        exact ⟨congrArg Prod.fst this, congrArg Prod.snd this⟩
      simp [List.isEmpty_iff] at hemp
      simp [hemp, hx]
    next heq => rw [hsp] at heq; simp at heq
  | case5 cs tag rest hsp hemp hx ih =>
    rw [findLastTag]
    simp only [reduceIte]
    split
    next tag' rest' heq =>
      rw [hsp] at heq
      obtain ⟨rfl, rfl⟩ : tag = tag' ∧ rest = rest' := by
        have := Option.some.inj heq
        exact ⟨congrArg Prod.fst this, congrArg Prod.snd this⟩
      simp [List.isEmpty_iff] at hemp
      simp [hemp, hx]
    next heq => rw [hsp] at heq; simp at heq
  | case6 cs hsp b' t' a' hx ih =>
    rw [findLastTag]
    simp only [reduceIte]
    split
    next tag' rest' heq => rw [hsp] at heq; simp at heq
    next heq => simp [hx]
  | case7 cs hsp hx ih =>
    have hnb := splitAtRBracket_none hsp
    obtain ⟨p, m, q, heq, hm, hnm⟩ := h
    cases p with
    | nil =>
      simp only [List.nil_append, List.cons.injEq, true_and] at heq
      refine absurd ?_ hnb
      rw [heq]
      exact List.mem_append_right m (by simp)
    | cons ph pt =>
      simp only [List.cons_append, List.cons.injEq] at heq
      refine absurd ?_ hnb
      rw [heq.2]
      exact List.mem_append_right pt (by simp)
  | case8 c cs hc b' t' a' hx ih =>
    simp only [findLastTag, if_neg hc, hx]
    simp
  | case9 c cs hc hx ih =>
    obtain ⟨p, m, q, heq, hm, hnm⟩ := h
    cases p with
    | nil =>
      simp only [List.nil_append, List.cons.injEq] at heq
      exact absurd heq.1 hc
    | cons ph pt =>
      simp only [List.cons_append, List.cons.injEq] at heq
      have hcs : HasTag cs := ⟨pt, m, q, heq.2, hm, hnm⟩
      have := ih hcs
      rw [hx] at this
      simp at this

theorem isPyDigit_ne_brackets {c : Char} (h : isPyDigit c = true) :
    c ≠ '[' ∧ c ≠ ']' := by
  constructor
  · intro h1; subst h1; exact absurd h (by decide)
  · intro h1; subst h1; exact absurd h (by decide)

theorem matchDigitsBrace_decomp {l r : Str} (h : matchDigitsBrace l = some r) :
    ∃ ds : Str, l = ds ++ '\x7d' :: r ∧ ∀ x ∈ ds, isPyDigit x = true := by
  unfold matchDigitsBrace at h
  split at h
  · exact absurd h (by simp)
  · split at h
    next c rest hdw =>
      split at h
      next hc =>
        subst hc
        refine ⟨l.takeWhile isPyDigit, ?_, fun x hx => List.mem_takeWhile_imp hx⟩
        have hinj : rest = r := Option.some.inj h
        subst hinj
        conv_lhs => rw [← List.takeWhile_append_dropWhile isPyDigit l]
        rw [hdw]
      next hc => exact absurd h (by simp)
    next hdw => exact absurd h (by simp)

theorem matchArtifact1_consumes {l r : Str} (h : matchArtifact1 l = some r) :
    ∃ a : Str, l = a ++ r ∧ '[' ∉ a ∧ ']' ∉ a := by
  unfold matchArtifact1 at h
  split at h
  next a b c d e rest =>
    split at h
    next hcond =>
      simp only [Bool.and_eq_true, decide_eq_true_eq] at hcond
      obtain ⟨⟨⟨⟨ha, hb⟩, hc⟩, hd⟩, he⟩ := hcond
      subst ha; subst hb; subst hc; subst hd; subst he
      obtain ⟨ds, hdec, hds⟩ := matchDigitsBrace_decomp h
      subst hdec
      refine ⟨'\x7b' :: '\x27' :: '=' :: '\x27' :: '*' :: (ds ++ ['\x7d']), by simp, ?_, ?_⟩
      · simp only [List.mem_cons, List.mem_append, List.mem_singleton]
        rintro (h1 | h1 | h1 | h1 | h1 | h1 | h1) <;> first
          | exact absurd h1 (by decide)
          | exact absurd (isPyDigit_ne_brackets (hds _ h1)).1 (fun hne => hne rfl)
      · simp only [List.mem_cons, List.mem_append, List.mem_singleton]
        rintro (h1 | h1 | h1 | h1 | h1 | h1 | h1) <;> first
          | exact absurd h1 (by decide)
          | exact absurd (isPyDigit_ne_brackets (hds _ h1)).2 (fun hne => hne rfl)
    next => exact absurd h (by simp)
  next => exact absurd h (by simp)

theorem isQuoteChar_ne_brackets {c : Char} (h : isQuoteChar c = true) :
    c ≠ '[' ∧ c ≠ ']' := by
  simp only [isQuoteChar, Bool.or_eq_true, decide_eq_true_eq] at h
  rcases h with rfl | rfl <;> exact ⟨by decide, by decide⟩

theorem matchArtifact2_consumes {l r : Str} (h : matchArtifact2 l = some r) :
    ∃ a : Str, l = a ++ r ∧ '[' ∉ a ∧ ']' ∉ a := by
  unfold matchArtifact2 at h
  split at h
  next a b c d e rest =>
    split at h
    next hcond =>
      simp only [Bool.and_eq_true, decide_eq_true_eq] at hcond
      obtain ⟨⟨⟨⟨ha, hb⟩, hc⟩, hd⟩, he⟩ := hcond
      subst ha; subst hc; subst he
      obtain ⟨ds, hdec, hds⟩ := matchDigitsBrace_decomp h
      subst hdec
      refine ⟨'\x7b' :: b :: '=' :: d :: '*' :: (ds ++ ['\x7d']), by simp, ?_, ?_⟩
      · simp only [List.mem_cons, List.mem_append, List.mem_singleton]
        rintro (h1 | h1 | h1 | h1 | h1 | h1 | h1) <;> first
          | exact absurd h1 (by decide)
          | exact absurd h1.symm (isQuoteChar_ne_brackets hb).1
          | exact absurd h1.symm (isQuoteChar_ne_brackets hd).1
          | exact absurd (isPyDigit_ne_brackets (hds _ h1)).1 (fun hne => hne rfl)
      · simp only [List.mem_cons, List.mem_append, List.mem_singleton]
        rintro (h1 | h1 | h1 | h1 | h1 | h1 | h1) <;> first
          | exact absurd h1 (by decide)
          | exact absurd h1.symm (isQuoteChar_ne_brackets hb).2
          | exact absurd h1.symm (isQuoteChar_ne_brackets hd).2
          | exact absurd (isPyDigit_ne_brackets (hds _ h1)).2 (fun hne => hne rfl)
    next => exact absurd h (by simp)
  next => exact absurd h (by simp)

theorem pySubAux_noTag {m : Str → Option Str}
    (hm : ∀ l r : Str, m l = some r → ∃ a : Str, l = a ++ r ∧ '[' ∉ a ∧ ']' ∉ a) :
    ∀ (fuel : Nat) (l : Str),
      (HasTag (pySubAux m fuel l) → HasTag l) ∧
      (∀ mm qq : Str, pySubAux m fuel l = mm ++ ']' :: qq → ']' ∉ mm →
        ∃ mm' qq' : Str, l = mm' ++ ']' :: qq' ∧ ']' ∉ mm' ∧ (mm ≠ [] → mm' ≠ [])) := by
  intro fuel
  induction fuel with
  | zero =>
    intro l
    refine ⟨fun h => h, fun mm qq hdec hnm => ⟨mm, qq, hdec, hnm, fun h => h⟩⟩
  | succ fuel ih =>
    intro l
    cases l with
    | nil =>
      constructor
      · intro h; simpa [pySubAux] using h
      · intro mm qq hdec
        simp only [pySubAux] at hdec
        exact absurd hdec.symm (List.append_ne_nil_of_right_ne_nil mm (by simp))
    | cons c cs =>
      cases hm2 : m (c :: cs) with
      | some rest =>
        obtain ⟨aa, hdec, hnlb, hnrb⟩ := hm _ _ hm2
        constructor
        · intro h
          simp only [pySubAux, hm2] at h
          have h2 := (ih rest).1 h
          rw [hdec]
          exact hasTag_append_left aa h2
        · intro mm qq hEq hnm
          simp only [pySubAux, hm2] at hEq
          obtain ⟨mm', qq', hdec2, hnm', himp⟩ := (ih rest).2 mm qq hEq hnm
          refine ⟨aa ++ mm', qq', ?_, ?_, ?_⟩
          · rw [hdec, hdec2]; simp
          · simp only [List.mem_append]
            rintro (hh | hh)
            · exact hnrb hh
            · exact hnm' hh
          · intro hne
            exact List.append_ne_nil_of_right_ne_nil aa (himp hne)
      | none =>
        constructor
        · intro h
          simp only [pySubAux, hm2] at h
          obtain ⟨p, m0, q, heq, hm0, hnm0⟩ := h
          cases p with
          | nil =>
            simp only [List.nil_append, List.cons.injEq] at heq
            obtain ⟨rfl, heq2⟩ := heq
            obtain ⟨mm', qq', hdec2, hnm', himp⟩ := (ih cs).2 m0 q heq2 hnm0
            exact ⟨[], mm', qq', by simp [hdec2], himp hm0, hnm'⟩
          | cons ph pt =>
            simp only [List.cons_append, List.cons.injEq] at heq
            obtain ⟨rfl, heq2⟩ := heq
            exact hasTag_cons _ ((ih cs).1 ⟨pt, m0, q, heq2, hm0, hnm0⟩)
        · intro mm qq hEq hnm
          simp only [pySubAux, hm2] at hEq
          cases mm with
          | nil =>
            simp only [List.nil_append, List.cons.injEq] at hEq
            obtain ⟨rfl, _⟩ := hEq
            exact ⟨[], cs, rfl, by simp, fun h => absurd rfl h⟩
          | cons mh mt =>
            simp only [List.cons_append, List.cons.injEq] at hEq
            obtain ⟨rfl, hEq2⟩ := hEq
            simp only [List.mem_cons, not_or] at hnm
            obtain ⟨mm', qq', hdec2, hnm', _⟩ := (ih cs).2 mt qq hEq2 hnm.2
            refine ⟨c :: mm', qq', by simp [hdec2], ?_, fun _ => by simp⟩
            simp only [List.mem_cons, not_or]
            exact ⟨fun hh => hnm.1 hh, hnm'⟩

theorem hasTag_pySub {m : Str → Option Str}
    (hm : ∀ l r : Str, m l = some r → ∃ a : Str, l = a ++ r ∧ '[' ∉ a ∧ ']' ∉ a)
    {l : Str} (h : HasTag (pySub m l)) : HasTag l :=
  (pySubAux_noTag hm l.length l).1 h

theorem hasTag_pyLStrip {l : Str} (h : HasTag (pyLStrip l)) : HasTag l := by
  have hdec : l = l.takeWhile isPySpace ++ l.dropWhile isPySpace :=
    (List.takeWhile_append_dropWhile isPySpace l).symm
  rw [hdec]
  exact hasTag_append_left _ h

theorem hasTag_pyRStrip {l : Str} (h : HasTag (pyRStrip l)) : HasTag l := by
  have hdec : l = pyRStrip l ++ (l.reverse.takeWhile isPySpace).reverse := by
    unfold pyRStrip
    conv_lhs => rw [← List.reverse_reverse l]
    conv_lhs =>
      rw [← List.takeWhile_append_dropWhile isPySpace l.reverse]
    rw [List.reverse_append]
  rw [hdec]
  exact hasTag_append_right _ h

theorem hasTag_pyStrip {l : Str} (h : HasTag (pyStrip l)) : HasTag l :=
  hasTag_pyLStrip (hasTag_pyRStrip h)

theorem hasTag_cleanArtifacts {s : Str} (h : HasTag (cleanArtifacts s)) : HasTag s :=
  hasTag_pySub (fun _ _ => matchArtifact1_consumes)
    (hasTag_pySub (fun _ _ => matchArtifact2_consumes) h)

/-- When the raw response matches the tag regex nowhere, neither tag search
succeeds on the artifact-cleaned, stripped text. -/
theorem noTag_processed {response : Str} (h : findLastTag response = none) :
    findEndTag (pyStrip (cleanArtifacts response)) = none ∧
    findLastTag (pyStrip (cleanArtifacts response)) = none := by
  constructor
  · cases heq : findEndTag (pyStrip (cleanArtifacts response)) with
    | none => rfl
    | some pr =>
      obtain ⟨p, t⟩ := pr
      have h1 : HasTag response := hasTag_cleanArtifacts (hasTag_pyStrip (findEndTag_hasTag heq))
      have h2 := hasTag_findLastTag_isSome h1
      rw [h] at h2
      simp at h2
  · cases heq : findLastTag (pyStrip (cleanArtifacts response)) with
    | none => rfl
    | some pr =>
      obtain ⟨b, t, a⟩ := pr
      have h1 : HasTag response := hasTag_cleanArtifacts (hasTag_pyStrip (findLastTag_hasTag heq))
      have h2 := hasTag_findLastTag_isSome h1
      rw [h] at h2
      simp at h2

theorem dropWhile_head_false {p : Char → Bool} {l cs : Str} {c : Char}
    (h : l.dropWhile p = c :: cs) : p c = false := by
  induction l with
  | nil => simp at h
  | cons a as ih =>
    by_cases hp : p a
    · simp only [List.dropWhile_cons, hp, if_true] at h
      exact ih h
    · simp only [List.dropWhile_cons, hp, if_false] at h
      injection h with h1 h2
      subst h1
      simpa using hp

theorem pyRStrip_eq_rdropWhile (l : Str) : pyRStrip l = List.rdropWhile isPySpace l := rfl

theorem pyStrip_idem (l : Str) : pyStrip (pyStrip l) = pyStrip l := by
  show pyRStrip (pyLStrip (pyRStrip (pyLStrip l))) = pyRStrip (pyLStrip l)
  have h1 : pyLStrip (pyRStrip (pyLStrip l)) = pyRStrip (pyLStrip l) := by
    cases hc : pyRStrip (pyLStrip l) with
    | nil => rfl
    | cons c cs =>
      have hpre : pyRStrip (pyLStrip l) <+: pyLStrip l := by
        rw [pyRStrip_eq_rdropWhile]
        exact List.rdropWhile_prefix _ _
      obtain ⟨t, ht⟩ := hpre
      rw [hc] at ht
      have hdw : l.dropWhile isPySpace = c :: (cs ++ t) := by
        show pyLStrip l = _
        rw [← ht]
        simp
      have hfc : isPySpace c = false := dropWhile_head_false hdw
      show List.dropWhile isPySpace (c :: cs) = c :: cs
      simp [List.dropWhile_cons, hfc]
  rw [h1, pyRStrip_eq_rdropWhile, pyRStrip_eq_rdropWhile, List.rdropWhile_idempotent]

theorem alookup_mem_values {κ α : Type} [DecidableEq κ] {k : κ} {v : α}
    {l : List (κ × α)} (h : alookup k l = some v) : v ∈ l.map Prod.snd := by
  induction l with
  | nil => simp [alookup] at h
  | cons kv rest ih =>
    obtain ⟨k0, v0⟩ := kv
    by_cases hk : k0 = k
    · simp only [alookup, if_pos hk] at h
      simp [Option.some.inj h]
    · simp only [alookup, if_neg hk] at h
      simp [ih h]

/-- The input-output behaviour of `map_emotion_to_image` for a suspect whose
key is in the characters table: the stripped tag is looked up in the
character's emotion mapping, valid tags map to their image and anything else
to the mapping's "default" entry (or "other.jpg"). -/
theorem map_emotion_to_image_spec (db : CharacterDatabase) (suspect_id : Int)
    (tag : Str) (ch : Character)
    (hch : alookup (intToStr suspect_id) db.characters = some ch) :
    map_emotion_to_image db suspect_id tag =
      .ok ((alookup (pyStrip tag) ch.emotion_mapping).getD
             ((alookup "default".data ch.emotion_mapping).getD "other.jpg".data),
           (alookup (pyStrip tag) ch.emotion_mapping).isSome) := by
  unfold map_emotion_to_image get_emotion_mapping
  rw [hch]
  cases halook : alookup (pyStrip tag) ch.emotion_mapping <;> simp [halook]

/-- C1: for every model response string and every suspect whose key is in the
character database, `parse_emotion_tag` extracts a bracketed tag by first
trying the end-anchored pattern on the artifact-cleaned stripped text and
otherwise taking the last bracketed tag anywhere in it; the whitespace-
stripped tag is validated against the character's emotion mapping, a valid
tag returns its mapped image filename and an invalid one the character's
default image; with no tag at all, the default branch applies. -/
theorem parse_emotion_tag_extracts_and_validates
    (db : CharacterDatabase) (suspect_id : Int) (response : Str) (ch : Character)
    (hch : alookup (intToStr suspect_id) db.characters = some ch) :
    ∃ img cleaned tag : Str,
      parse_emotion_tag db suspect_id response = .ok (img, cleaned, tag) ∧
      (∀ p t : Str, findEndTag (pyStrip (cleanArtifacts response)) = some (p, t) →
        tag = pyStrip t ∧ cleaned = pyStrip p ∧
        img = (alookup tag ch.emotion_mapping).getD
                ((alookup "default".data ch.emotion_mapping).getD "other.jpg".data)) ∧
      (findEndTag (pyStrip (cleanArtifacts response)) = none →
        ∀ b t a : Str, findLastTag (pyStrip (cleanArtifacts response)) = some (b, t, a) →
        tag = pyStrip t ∧ cleaned = pyStrip (b ++ a) ∧
        img = (alookup tag ch.emotion_mapping).getD
                ((alookup "default".data ch.emotion_mapping).getD "other.jpg".data)) ∧
      (findEndTag (pyStrip (cleanArtifacts response)) = none →
        findLastTag (pyStrip (cleanArtifacts response)) = none →
        img = (alookup "default".data ch.emotion_mapping).getD "other.jpg".data ∧
        cleaned = pyStrip (cleanArtifacts response) ∧ tag = "default".data) := by
  cases hend : findEndTag (pyStrip (cleanArtifacts response)) with
  | some pr =>
    obtain ⟨p, t⟩ := pr
    have hparse : parse_emotion_tag db suspect_id response =
        .ok ((alookup (pyStrip t) ch.emotion_mapping).getD
               ((alookup "default".data ch.emotion_mapping).getD "other.jpg".data),
             pyStrip (p ++ []), pyStrip t) := by
      simp only [parse_emotion_tag, hend,
        map_emotion_to_image_spec db suspect_id (pyStrip t) ch hch, pyStrip_idem]
    refine ⟨_, _, _, hparse, ?_, ?_, ?_⟩
    · intro p' t' hsome
      have hp : p = p' := congrArg Prod.fst (Option.some.inj hsome)
      have ht : t = t' := congrArg Prod.snd (Option.some.inj hsome)
      subst hp; subst ht
      exact ⟨rfl, by simp, rfl⟩
    · intro hnone
      cases hnone
    · intro hnone _
      cases hnone
  | none =>
    cases hlast : findLastTag (pyStrip (cleanArtifacts response)) with
    | some pr =>
      obtain ⟨b, t, a⟩ := pr
      have hparse : parse_emotion_tag db suspect_id response =
          .ok ((alookup (pyStrip t) ch.emotion_mapping).getD
                 ((alookup "default".data ch.emotion_mapping).getD "other.jpg".data),
               pyStrip (b ++ a), pyStrip t) := by
        simp only [parse_emotion_tag, hend, hlast,
          map_emotion_to_image_spec db suspect_id (pyStrip t) ch hch, pyStrip_idem]
      refine ⟨_, _, _, hparse, ?_, ?_, ?_⟩
      · intro p' t' hsome
        cases hsome
      · intro _ b' t' a' hsome
        have hb : b = b' := congrArg (fun x => x.1) (Option.some.inj hsome)
        have ht : t = t' := congrArg (fun x => x.2.1) (Option.some.inj hsome)
        have ha : a = a' := congrArg (fun x => x.2.2) (Option.some.inj hsome)
        subst hb; subst ht; subst ha
        exact ⟨rfl, rfl, rfl⟩
      · intro _ hnone
        cases hnone
    | none =>
      have hparse : parse_emotion_tag db suspect_id response =
          .ok ((alookup "default".data ch.emotion_mapping).getD "other.jpg".data,
               pyStrip (cleanArtifacts response), "default".data) := by
        simp only [parse_emotion_tag, get_emotion_mapping, hend, hlast, hch]
      refine ⟨_, _, _, hparse, ?_, ?_, ?_⟩
      · intro p' t' hsome
        cases hsome
      · intro _ b' t' a' hsome
        cases hsome
      · intro _ _
        exact ⟨rfl, rfl, rfl⟩

/-- C4: for every model response string containing no bracketed tag and every
suspect whose key is in the character database, `parse_emotion_tag` falls
back to the per-character default: it returns the image filename stored
under the "default" key of the character's emotion mapping (or the literal
"other.jpg" when there is no "default" entry), the processed response text,
and the emotion tag name "default". -/
theorem parse_emotion_tag_no_tag_default
    (db : CharacterDatabase) (suspect_id : Int) (response : Str) (ch : Character)
    (hch : alookup (intToStr suspect_id) db.characters = some ch)
    (hnotag : findLastTag response = none) :
    parse_emotion_tag db suspect_id response =
      .ok ((alookup "default".data ch.emotion_mapping).getD "other.jpg".data,
           pyStrip (cleanArtifacts response), "default".data) := by
  obtain ⟨hend, hlast⟩ := noTag_processed hnotag
  simp only [parse_emotion_tag, get_emotion_mapping, hend, hlast, hch]

/-- C9: for every response string and every suspect whose key is in the
character database, `parse_emotion_tag` returns normally and the image
filename it returns is one of the image filenames of that character's
emotion mapping, or the literal "other.jpg". -/
theorem parse_emotion_tag_image_in_range
    (db : CharacterDatabase) (suspect_id : Int) (response : Str) (ch : Character)
    (hch : alookup (intToStr suspect_id) db.characters = some ch) :
    ∃ img cleaned tag : Str,
      parse_emotion_tag db suspect_id response = .ok (img, cleaned, tag) ∧
      (img ∈ ch.emotion_mapping.map Prod.snd ∨ img = "other.jpg".data) := by
  have hrange : ∀ key : Str,
      (alookup key ch.emotion_mapping).getD
          ((alookup "default".data ch.emotion_mapping).getD "other.jpg".data)
            ∈ ch.emotion_mapping.map Prod.snd ∨
      (alookup key ch.emotion_mapping).getD
          ((alookup "default".data ch.emotion_mapping).getD "other.jpg".data)
            = "other.jpg".data := by
    intro key
    cases hk : alookup key ch.emotion_mapping with
    | some f => exact Or.inl (by simpa using alookup_mem_values hk)
    | none =>
      cases hd : alookup "default".data ch.emotion_mapping with
      | some d => exact Or.inl (by simpa using alookup_mem_values hd)
      | none => exact Or.inr (by simp)
  have hdef :
      (alookup "default".data ch.emotion_mapping).getD "other.jpg".data
          ∈ ch.emotion_mapping.map Prod.snd ∨
      (alookup "default".data ch.emotion_mapping).getD "other.jpg".data
          = "other.jpg".data := by
    cases hd : alookup "default".data ch.emotion_mapping with
    | some d => exact Or.inl (by simpa using alookup_mem_values hd)
    | none => exact Or.inr (by simp)
  cases hend : findEndTag (pyStrip (cleanArtifacts response)) with
  | some pr =>
    obtain ⟨p, t⟩ := pr
    refine ⟨(alookup (pyStrip t) ch.emotion_mapping).getD
              ((alookup "default".data ch.emotion_mapping).getD "other.jpg".data),
            pyStrip (p ++ []), pyStrip t, ?_, hrange (pyStrip t)⟩
    simp only [parse_emotion_tag, hend,
      map_emotion_to_image_spec db suspect_id (pyStrip t) ch hch, pyStrip_idem]
  | none =>
    cases hlast : findLastTag (pyStrip (cleanArtifacts response)) with
    | some pr =>
      obtain ⟨b, t, a⟩ := pr
      refine ⟨(alookup (pyStrip t) ch.emotion_mapping).getD
                ((alookup "default".data ch.emotion_mapping).getD "other.jpg".data),
              pyStrip (b ++ a), pyStrip t, ?_, hrange (pyStrip t)⟩
      simp only [parse_emotion_tag, hend, hlast,
        map_emotion_to_image_spec db suspect_id (pyStrip t) ch hch, pyStrip_idem]
    | none =>
      refine ⟨(alookup "default".data ch.emotion_mapping).getD "other.jpg".data,
              pyStrip (cleanArtifacts response), "default".data, ?_, hdef⟩
      simp only [parse_emotion_tag, get_emotion_mapping, hend, hlast, hch]

/-- A small concrete character record used to instantiate hypotheses of the
theorems at concrete inputs. -/
def sampleCharacter : Character :=
  { name := "سرا".data
    role := "راهبه".data
    identity_core := "identity".data
    psychological_shadow := "shadow".data
    inner_conflict := "conflict".data
    identity_lens := "lens".data
    core_philosophy := "philosophy".data
    dialogue_style := "style".data
    forbidden_lines := ["forbidden line".data]
    interview_modes := ["fear".data, "calm".data]
    relationships := [("detective".data, "distrust".data)]
    sub_narratives := ["clue".data]
    secret_lore := "lore".data
    signature_line := "silence".data
    emotion_mapping := [("fear".data, "fear.jpg".data), ("calm".data, "calm.jpg".data),
                        ("default".data, "calm.jpg".data)] }

/-- Concrete core rules for the sample database. -/
def sampleCoreRules : CoreRules :=
  { non_breakable_ruleset := "ruleset".data
    core_narrative := "narrative".data
    interrogation_context := [("detective_name".data, "Det".data)]
    forbidden_behaviors := ["no confession".data]
    allowed_behaviors := ["lying".data]
    final_purpose := "purpose".data }

/-- A concrete one-character database keyed by "2". -/
def sampleDb : CharacterDatabase :=
  { core_rules := sampleCoreRules
    characters := [("2".data, sampleCharacter)] }

theorem parse_emotion_tag_extracts_and_validates_witness :
    ∃ img cleaned tag : Str,
      parse_emotion_tag sampleDb 2 "hello [fear]".data = .ok (img, cleaned, tag) ∧
      (∀ p t : Str,
        findEndTag (pyStrip (cleanArtifacts "hello [fear]".data)) = some (p, t) →
        tag = pyStrip t ∧ cleaned = pyStrip p ∧
        img = (alookup tag sampleCharacter.emotion_mapping).getD
                ((alookup "default".data sampleCharacter.emotion_mapping).getD
                  "other.jpg".data)) ∧
      (findEndTag (pyStrip (cleanArtifacts "hello [fear]".data)) = none →
        ∀ b t a : Str,
        findLastTag (pyStrip (cleanArtifacts "hello [fear]".data)) = some (b, t, a) →
        tag = pyStrip t ∧ cleaned = pyStrip (b ++ a) ∧
        img = (alookup tag sampleCharacter.emotion_mapping).getD
                ((alookup "default".data sampleCharacter.emotion_mapping).getD
                  "other.jpg".data)) ∧
      (findEndTag (pyStrip (cleanArtifacts "hello [fear]".data)) = none →
        findLastTag (pyStrip (cleanArtifacts "hello [fear]".data)) = none →
        img = (alookup "default".data sampleCharacter.emotion_mapping).getD
                "other.jpg".data ∧
        cleaned = pyStrip (cleanArtifacts "hello [fear]".data) ∧
        tag = "default".data) :=
  parse_emotion_tag_extracts_and_validates sampleDb 2 "hello [fear]".data
    sampleCharacter (by decide)

theorem parse_emotion_tag_no_tag_default_witness :
    parse_emotion_tag sampleDb 2 "hello detective".data =
      .ok ((alookup "default".data sampleCharacter.emotion_mapping).getD
             "other.jpg".data,
           pyStrip (cleanArtifacts "hello detective".data), "default".data) :=
  parse_emotion_tag_no_tag_default sampleDb 2 "hello detective".data
    sampleCharacter (by decide) (by simp [findLastTag, splitAtRBracket])

theorem parse_emotion_tag_image_in_range_witness :
    ∃ img cleaned tag : Str,
      parse_emotion_tag sampleDb 2 "hmm [anger] so".data = .ok (img, cleaned, tag) ∧
      (img ∈ sampleCharacter.emotion_mapping.map Prod.snd ∨ img = "other.jpg".data) :=
  parse_emotion_tag_image_in_range sampleDb 2 "hmm [anger] so".data
    sampleCharacter (by decide)

/-- C10: for every input string, clean_response raises an exception rather
than returning a cleaned string: the call passes only one of
parse_emotion_tag's two required positional arguments, so Python raises
TypeError at the call site (and even a 3-tuple result could not be unpacked
into two variables), and no input reaches a normal return. -/
theorem clean_response_always_raises (response : Str) :
    clean_response response =
      .error ⟨"TypeError".data,
        "parse_emotion_tag() missing 1 required positional argument: ".data
          ++ "\x27suspect_id\x27".data⟩ := rfl

/-- C2 counterexample: when every chat attempt fails, the failure is not
propagated to the caller of get_suspect_response: the outer handler catches
the exception and the caller receives the fallback string as an ordinary
return value, not an exception. -/
theorem get_suspect_response_swallows_failure_cex :
    get_suspect_response_result
        (fun _ => .error ⟨"ResponseError".data, "503 Service Unavailable".data⟩) =
      .ok (fallback_message ⟨"ResponseError".data, "503 Service Unavailable".data⟩) ∧
    get_suspect_response_result
        (fun _ => .error ⟨"ResponseError".data, "503 Service Unavailable".data⟩) ≠
      .error ⟨"ResponseError".data, "503 Service Unavailable".data⟩ := by
  have hc : chatWithRetry
      (fun _ : Nat =>
        (.error ⟨"ResponseError".data, "503 Service Unavailable".data⟩ : Except PyErr Str)) =
      (.error ⟨"ResponseError".data, "503 Service Unavailable".data⟩, [1, 2]) := by
    simp [chatWithRetry, retryLoop]
  refine ⟨?_, ?_⟩
  · simp [get_suspect_response_result, hc]
  · simp [get_suspect_response_result, hc]

/-- C2 (amended): the Ollama-mode suspect-response call is retried up to 3
times with sleeps of 1 then 2 seconds (doubling backoff starting at one
second); when every attempt fails the exception of the final attempt
escapes the retry loop but is then caught inside get_suspect_response,
whose caller receives the fallback string embedding the error instead of a
propagated exception; an attempt that succeeds ends the loop at once. -/
theorem retry_three_attempts_doubling_backoff_then_fallback :
    (∀ (attempt : Nat → Except PyErr Str) (e0 e1 e2 : PyErr),
      attempt 0 = .error e0 → attempt 1 = .error e1 → attempt 2 = .error e2 →
      chatWithRetry attempt = (.error e2, [1, 2]) ∧
      get_suspect_response_result attempt = .ok (fallback_message e2)) ∧
    (∀ (attempt : Nat → Except PyErr Str) (r : Str),
      attempt 0 = .ok r → chatWithRetry attempt = (.ok r, [])) ∧
    (∀ (attempt : Nat → Except PyErr Str) (e0 : PyErr) (r : Str),
      attempt 0 = .error e0 → attempt 1 = .ok r →
      chatWithRetry attempt = (.ok r, [1])) ∧
    (∀ (attempt : Nat → Except PyErr Str) (e0 e1 : PyErr) (r : Str),
      attempt 0 = .error e0 → attempt 1 = .error e1 → attempt 2 = .ok r →
      chatWithRetry attempt = (.ok r, [1, 2])) := by
  refine ⟨?_, ?_, ?_, ?_⟩
  · intro attempt e0 e1 e2 h0 h1 h2
    have hc : chatWithRetry attempt = (.error e2, [1, 2]) := by
      simp [chatWithRetry, retryLoop, h0, h1, h2]
    exact ⟨hc, by simp [get_suspect_response_result, hc]⟩
  · intro attempt r h0
    simp [chatWithRetry, retryLoop, h0]
  · intro attempt e0 r h0 h1
    simp [chatWithRetry, retryLoop, h0, h1]
  · intro attempt e0 e1 r h0 h1 h2
    simp [chatWithRetry, retryLoop, h0, h1, h2]

theorem retry_three_attempts_doubling_backoff_then_fallback_witness :
    chatWithRetry (fun i : Nat =>
        if i = 2 then (.ok "ok".data : Except PyErr Str)
        else .error ⟨"Error".data, "boom".data⟩) =
      (.ok "ok".data, [1, 2]) :=
  retry_three_attempts_doubling_backoff_then_fallback.2.2.2
    (fun i : Nat =>
      if i = 2 then (.ok "ok".data : Except PyErr Str)
      else .error ⟨"Error".data, "boom".data⟩)
    ⟨"Error".data, "boom".data⟩ ⟨"Error".data, "boom".data⟩ "ok".data
    rfl rfl rfl

theorem decodeDay_encodeDay (d : DayVal) : decodeDay (encodeDay d) = d := by
  cases d <;> rfl

theorem decodePage_encodePage (p : Page) : decodePage (encodePage p) = p := by
  obtain ⟨d, c⟩ := p
  cases d <;> rfl

theorem map_decode_encode_pages (ps : List Page) :
    (ps.map encodePage).map decodePage = ps := by
  rw [List.map_map]
  exact List.map_congr_left (fun p _ => decodePage_encodePage p) |>.trans (List.map_id ps)

/-- C3 counterexample: a save file that exists and parses as JSON (here the
JSON array `[]`) on which load() returns False, refuting "load() returns
True exactly when the save file exists and parses as JSON". -/
theorem load_false_on_json_array_cex :
    GameState.load (SaveFile.parsed (Json.arr [])) GameState.initial =
      (false, GameState.initial) := rfl

/-- C3 (amended): save() then load() on a fresh GameState restores
current_day, notebook_pages, game_ended, win_state, intro_shown and
case_files_text to their values at save time, and load() returns True
exactly when the save file exists and parses as a JSON object (returning
False otherwise and leaving the state untouched, so a fresh state keeps its
defaults). -/
theorem save_load_roundtrip :
    (∀ gs : GameState,
      GameState.load (SaveFile.parsed (GameState.save gs)) GameState.initial =
        (true,
         { GameState.initial with
           current_day := gs.current_day
           notebook_pages := gs.notebook_pages
           game_ended := gs.game_ended
           win_state := gs.win_state
           intro_shown := gs.intro_shown
           case_files_text := gs.case_files_text })) ∧
    (∀ gs : GameState, GameState.load SaveFile.missing gs = (false, gs)) ∧
    (∀ gs : GameState, GameState.load SaveFile.corrupt gs = (false, gs)) ∧
    (∀ (f : SaveFile) (gs : GameState),
      (GameState.load f gs).1 = true ↔
        ∃ fields : List (Str × Json), f = SaveFile.parsed (Json.obj fields)) := by
  refine ⟨?_, fun gs => rfl, fun gs => rfl, ?_⟩
  · intro gs
    have h1 : GameState.load (SaveFile.parsed (GameState.save gs)) GameState.initial =
        (true,
         { GameState.initial with
           current_day := decodeDay (encodeDay gs.current_day)
           notebook_pages := (gs.notebook_pages.map encodePage).map decodePage
           game_ended := gs.game_ended
           win_state := gs.win_state
           intro_shown := gs.intro_shown
           case_files_text := gs.case_files_text }) := rfl
    rw [h1, decodeDay_encodeDay, map_decode_encode_pages]
  · intro f gs
    cases f with
    | missing =>
      constructor
      · intro h; cases h
      · rintro ⟨fields, hf⟩; cases hf
    | corrupt =>
      constructor
      · intro h; cases h
      · rintro ⟨fields, hf⟩; cases hf
    | parsed j =>
      cases j with
      | obj fields => exact ⟨fun _ => ⟨fields, rfl⟩, fun _ => rfl⟩
      | null =>
        constructor
        · intro h; cases h
        · rintro ⟨fields, hf⟩
          injection hf with h2
          cases h2
      | bool b =>
        constructor
        · intro h; cases h
        · rintro ⟨fields, hf⟩
          injection hf with h2
          cases h2
      | num n =>
        constructor
        · intro h; cases h
        · rintro ⟨fields, hf⟩
          injection hf with h2
          cases h2
      | str s =>
        constructor
        · intro h; cases h
        · rintro ⟨fields, hf⟩
          injection hf with h2
          cases h2
      | arr elems =>
        constructor
        · intro h; cases h
        · rintro ⟨fields, hf⟩
          injection hf with h2
          cases h2

theorem alookup_upsert_self {κ α : Type} [DecidableEq κ] (k : κ) (v : α)
    (l : List (κ × α)) : alookup k (upsert k v l) = some v := by
  induction l with
  | nil => simp [upsert, alookup]
  | cons kv rest ih =>
    obtain ⟨k0, v0⟩ := kv
    by_cases hk : k0 = k
    · simp [upsert, hk, alookup]
    · simp [upsert, hk, alookup, ih]

theorem alookup_upsert_ne {κ α : Type} [DecidableEq κ] {k k' : κ} (h : k' ≠ k)
    (v : α) (l : List (κ × α)) : alookup k' (upsert k v l) = alookup k' l := by
  have hkk : k ≠ k' := fun hh => h hh.symm
  induction l with
  | nil => simp only [upsert, alookup, if_neg hkk]
  | cons kv rest ih =>
    obtain ⟨k0, v0⟩ := kv
    by_cases hk : k0 = k
    · subst hk
      simp only [upsert, if_pos rfl, alookup, if_neg hkk]
    · simp only [upsert, if_neg hk, alookup, ih]

theorem alookup_removeKey_self {κ α : Type} [DecidableEq κ] (k : κ)
    (l : List (κ × α)) : alookup k (removeKey k l) = none := by
  induction l with
  | nil => simp [removeKey, alookup]
  | cons kv rest ih =>
    obtain ⟨k0, v0⟩ := kv
    by_cases hk : k0 = k
    · simp [removeKey, hk, ih]
    · simp [removeKey, hk, alookup, ih]

theorem alookup_removeKey_ne {κ α : Type} [DecidableEq κ] {k k' : κ} (h : k' ≠ k)
    (l : List (κ × α)) : alookup k' (removeKey k l) = alookup k' l := by
  have hkk : k ≠ k' := fun hh => h hh.symm
  induction l with
  | nil => simp [removeKey]
  | cons kv rest ih =>
    obtain ⟨k0, v0⟩ := kv
    by_cases hk : k0 = k
    · subst hk
      simp only [removeKey, if_pos rfl, if_true, ih, alookup, if_neg hkk]
    · simp only [removeKey, if_neg hk, alookup, ih]

/-- C5: the engine keeps exactly one conversation object per suspect.
Asking suspect `a` creates `a`'s conversation object on first use (a fresh
engine built from `a`'s system prompt) and reuses the stored one on later
questions, storing the stepped object back under `a`; it never reads or
modifies the conversation object or stored history of any other suspect
`b`; and `resetChat a` removes exactly `a`'s entries from both tables. -/
theorem engine_per_suspect_isolation
    (db : CharacterDatabase) (prompt : Int → Except PyErr Str)
    (step : ChatEngine → Str → Str × ChatEngine)
    (complete : Str → List ChatMessage → Str → Str)
    (st : EngineState) (a b : Int) (q : Str) (hne : b ≠ a) :
    alookup b (askOllama db prompt step st a q).2.chat_engines =
      alookup b st.chat_engines ∧
    (askOllama db prompt step st a q).2.api_chat_histories = st.api_chat_histories ∧
    (alookup a st.chat_engines = none →
      alookup a (askOllama db prompt step st a q).2.chat_engines =
        some (step ⟨get_persona db a prompt, []⟩ q).2 ∧
      (askOllama db prompt step st a q).1 = (step ⟨get_persona db a prompt, []⟩ q).1) ∧
    (∀ e : ChatEngine, alookup a st.chat_engines = some e →
      alookup a (askOllama db prompt step st a q).2.chat_engines = some (step e q).2 ∧
      (askOllama db prompt step st a q).1 = (step e q).1) ∧
    alookup b (askApi db prompt complete st a q).2.api_chat_histories =
      alookup b st.api_chat_histories ∧
    (askApi db prompt complete st a q).2.chat_engines = st.chat_engines ∧
    alookup a (resetChat st a).chat_engines = none ∧
    alookup a (resetChat st a).api_chat_histories = none ∧
    alookup b (resetChat st a).chat_engines = alookup b st.chat_engines ∧
    alookup b (resetChat st a).api_chat_histories = alookup b st.api_chat_histories := by
  refine ⟨?_, rfl, ?_, ?_, ?_, rfl, ?_, ?_, ?_, ?_⟩
  · show alookup b (upsert a _ st.chat_engines) = alookup b st.chat_engines
    exact alookup_upsert_ne hne _ _
  · intro hnone
    constructor
    · show alookup a (upsert a _ st.chat_engines) = _
      rw [alookup_upsert_self]
      simp only [askOllama, hnone]
    · simp only [askOllama, hnone]
  · intro e he
    constructor
    · show alookup a (upsert a _ st.chat_engines) = _
      rw [alookup_upsert_self]
      simp only [askOllama, he]
    · simp only [askOllama, he]
  · show alookup b (upsert a _ st.api_chat_histories) = alookup b st.api_chat_histories
    exact alookup_upsert_ne hne _ _
  · exact alookup_removeKey_self a st.chat_engines
  · exact alookup_removeKey_self a st.api_chat_histories
  · exact alookup_removeKey_ne hne st.chat_engines
  · exact alookup_removeKey_ne hne st.api_chat_histories

theorem engine_per_suspect_isolation_witness :
    alookup 2
        (askOllama sampleDb (get_character_system_prompt sampleDb)
          (fun e _ => ("reply".data, e)) EngineState.initial 1 "why".data).2.chat_engines =
      alookup 2 EngineState.initial.chat_engines :=
  (engine_per_suspect_isolation sampleDb (get_character_system_prompt sampleDb)
    (fun e _ => ("reply".data, e)) (fun _ _ _ => "reply".data)
    EngineState.initial 1 2 "why".data (by decide)).1

/-- The bounded-history invariant of API mode: every stored per-suspect chat
history has at most 20 messages. -/
def apiHistBound (st : EngineState) : Prop :=
  ∀ (k : Int) (h : List ChatMessage),
    alookup k st.api_chat_histories = some h → h.length ≤ 20

theorem trimHistory_length_le {l : List ChatMessage} (h : l.length ≤ 22) :
    (trimHistory l).length ≤ 20 := by
  unfold trimHistory
  by_cases hgt : l.length > 20
  · rw [if_pos hgt]
    simp only [List.length_drop]
    omega
  · rw [if_neg hgt]
    omega

theorem askApi_stored_history
    (db : CharacterDatabase) (prompt : Int → Except PyErr Str)
    (complete : Str → List ChatMessage → Str → Str)
    (st : EngineState) (a : Int) (q : Str) :
    alookup a (askApi db prompt complete st a q).2.api_chat_histories =
      some (trimHistory ((alookup a st.api_chat_histories).getD [] ++
        [⟨"user".data, q⟩,
         ⟨"assistant".data,
          complete (get_persona db a prompt)
            ((alookup a st.api_chat_histories).getD []) q⟩])) := by
  show alookup a (upsert a _ st.api_chat_histories) = _
  rw [alookup_upsert_self]

theorem api_history_bounded :
    apiHistBound EngineState.initial ∧
    (∀ (db : CharacterDatabase) (prompt : Int → Except PyErr Str)
       (complete : Str → List ChatMessage → Str → Str)
       (st : EngineState) (a : Int) (q : Str),
      apiHistBound st →
      apiHistBound (askApi db prompt complete st a q).2) ∧
    (∀ (db : CharacterDatabase) (prompt : Int → Except PyErr Str)
       (complete : Str → List ChatMessage → Str → Str)
       (st : EngineState) (a : Int) (q : Str) (h : List ChatMessage),
      apiHistBound st →
      alookup a (askApi db prompt complete st a q).2.api_chat_histories = some h →
      h.length ≤ 20) ∧
    (∀ (db : CharacterDatabase) (prompt : Int → Except PyErr Str)
       (complete : Str → List ChatMessage → Str → Str)
       (st : EngineState) (calls : List (Int × Str)),
      apiHistBound st →
      apiHistBound (runApiCalls db prompt complete st calls)) := by
  have hstep : ∀ (db : CharacterDatabase) (prompt : Int → Except PyErr Str)
      (complete : Str → List ChatMessage → Str → Str)
      (st : EngineState) (a : Int) (q : Str),
      apiHistBound st → apiHistBound (askApi db prompt complete st a q).2 := by
    intro db prompt complete st a q hb k h hk
    by_cases hka : k = a
    · subst hka
      rw [askApi_stored_history db prompt complete st k q] at hk
      have hh := Option.some.inj hk
      subst hh
      refine trimHistory_length_le ?_
      have hlen0 : ((alookup k st.api_chat_histories).getD []).length ≤ 20 := by
        cases h0 : alookup k st.api_chat_histories with
        | none => simp
        | some l0 => simpa using hb k l0 h0
      simp only [List.length_append, List.length_cons, List.length_nil]
      omega
    · have hsame : alookup k (askApi db prompt complete st a q).2.api_chat_histories =
          alookup k st.api_chat_histories := by
        show alookup k (upsert a _ st.api_chat_histories) = _
        exact alookup_upsert_ne hka _ _
      rw [hsame] at hk
      exact hb k h hk
  refine ⟨?_, hstep, ?_, ?_⟩
  · intro k h hk
    simp [EngineState.initial, alookup] at hk
  · intro db prompt complete st a q h hb hk
    exact hstep db prompt complete st a q hb a h hk
  · intro db prompt complete st calls
    induction calls generalizing st with
    | nil => intro hb; exact hb
    | cons c rest ih =>
      intro hb
      obtain ⟨cid, cq⟩ := c
      exact ih _ (hstep db prompt complete st cid cq hb)

theorem api_history_bounded_witness :
    apiHistBound (askApi sampleDb (get_character_system_prompt sampleDb)
      (fun _ _ _ => "reply".data) EngineState.initial 1 "why".data).2 :=
  api_history_bounded.2.1 sampleDb (get_character_system_prompt sampleDb)
    (fun _ _ _ => "reply".data) EngineState.initial 1 "why".data
    (fun k h hk => by simp [EngineState.initial, alookup] at hk)

/-- C7: the system-prompt builder is pure string concatenation over the
loaded database: `get_character_system_prompt` raises ValueError exactly
when `str(suspect_id)` is not a key of the characters table, and for a
valid suspect id it returns (deterministically, without modifying the
database — it is a pure function of it) the newline-join of the prompt
parts: core rules, the character's persona fields, its forbidden lines,
its interview modes and the output-format instructions. -/
theorem get_character_system_prompt_spec :
    (∀ (db : CharacterDatabase) (suspect_id : Int),
      alookup (intToStr suspect_id) db.characters = none →
      get_character_system_prompt db suspect_id =
        .error ⟨"ValueError".data, "Invalid suspect_id: ".data ++ intToStr suspect_id⟩) ∧
    (∀ (db : CharacterDatabase) (suspect_id : Int) (ch : Character),
      alookup (intToStr suspect_id) db.characters = some ch →
      get_character_system_prompt db suspect_id =
        .ok (joinSep "\n".data (promptParts db.core_rules ch))) ∧
    (∀ (db : CharacterDatabase) (suspect_id : Int),
      (∃ e : PyErr, get_character_system_prompt db suspect_id = .error e) ↔
        alookup (intToStr suspect_id) db.characters = none) := by
  refine ⟨?_, ?_, ?_⟩
  · intro db suspect_id hnone
    simp only [get_character_system_prompt, hnone, invalidSuspectErr]
  · intro db suspect_id ch hch
    simp only [get_character_system_prompt, hch]
  · intro db suspect_id
    cases hch : alookup (intToStr suspect_id) db.characters with
    | none =>
      constructor
      · intro _; rfl
      · intro _
        exact ⟨invalidSuspectErr suspect_id, by
          simp only [get_character_system_prompt, hch]⟩
    | some ch =>
      constructor
      · rintro ⟨e, he⟩
        rw [show get_character_system_prompt db suspect_id =
              .ok (joinSep "\n".data (promptParts db.core_rules ch)) from by
            simp only [get_character_system_prompt, hch]] at he
        cases he
      · intro h
        cases h

theorem get_character_system_prompt_spec_witness :
    get_character_system_prompt sampleDb 2 =
      .ok (joinSep "\n".data (promptParts sampleDb.core_rules sampleCharacter)) :=
  get_character_system_prompt_spec.2.1 sampleDb 2 sampleCharacter (by decide)

/-- The day values of the first `n` notebook pages: the int days 1..n in
order. -/
def daysList : Nat → List DayVal
  | 0 => []
  | n + 1 => daysList n ++ [DayVal.num (n + 1)]

theorem daysList_length (n : Nat) : (daysList n).length = n := by
  induction n with
  | zero => rfl
  | succ n ih => simp [daysList, ih]

theorem daysList_no_final (n : Nat) : DayVal.final ∉ daysList n := by
  induction n with
  | zero => simp [daysList]
  | succ n ih => simp [daysList, ih]

theorem num_mem_daysList {n : Nat} (h : 1 ≤ n) :
    DayVal.num n ∈ daysList n := by
  cases n with
  | zero => omega
  | succ n => simp [daysList]

/-- The invariant claimed for the notebook: the page list is non-empty and
holds a page whose day equals the current day. -/
def NotebookInv (gs : GameState) : Prop :=
  gs.notebook_pages ≠ [] ∧ ∃ p ∈ gs.notebook_pages, p.day = gs.current_day

/-- Game states reachable through the GameState operations (the UI also
sets the end-state flag fields directly, which the `setFlags` step allows). -/
inductive ReachableGS : GameState → Prop
  | init : ReachableGS GameState.initial
  | advance {gs gs' : GameState} {d : Int} :
      ReachableGS gs → GameState.advance_day gs = .ok (gs', d) → ReachableGS gs'
  | createFinal {gs : GameState} :
      ReachableGS gs → ReachableGS (GameState.create_final_page gs)
  | update {gs : GameState} (c : Str) :
      ReachableGS gs → ReachableGS (GameState.update_current_page gs c)
  | reset {gs : GameState} : ReachableGS gs → ReachableGS (GameState.reset gs)
  | setFlags {gs : GameState} (b : Bool) (w : Str) (i : Bool) (c : Str) :
      ReachableGS gs →
      ReachableGS { gs with
                    game_ended := b, win_state := w,
                    intro_shown := i, case_files_text := c }

/-- The day structure of a reachable notebook: pages carry days 1..n in
order, optionally followed by one Final page, and the current day is the
last int day, or Final when the Final page exists. -/
def DaysShape (gs : GameState) : Prop :=
  ∃ n : Nat, 1 ≤ n ∧
    ((gs.notebook_pages.map Page.day = daysList n ∧
      gs.current_day = DayVal.num n) ∨
     (gs.notebook_pages.map Page.day = daysList n ++ [DayVal.final] ∧
      gs.current_day = DayVal.final))

theorem updateFirstMatch_day_map (f : Page → Bool) (c : Str) (l : List Page) :
    (updateFirstMatch f c l).map Page.day = l.map Page.day := by
  induction l with
  | nil => rfl
  | cons p rest ih =>
    by_cases hf : f p
    · simp [updateFirstMatch, hf]
    · simp [updateFirstMatch, hf, ih]

theorem updateLast_day_map (c : Str) (l : List Page) :
    (updateLast c l).map Page.day = l.map Page.day := by
  induction l with
  | nil => rfl
  | cons p rest ih =>
    cases rest with
    | nil => rfl
    | cons q rest2 => simpa [updateLast] using ih

theorem reachable_daysShape {gs : GameState} (h : ReachableGS gs) : DaysShape gs := by
  induction h with
  | init => exact ⟨1, le_refl 1, Or.inl ⟨rfl, rfl⟩⟩
  | advance hr hok ih =>
    next gs gs' d =>
    obtain ⟨n, hn, hshape | hshape⟩ := ih
    · obtain ⟨hmap, hday⟩ := hshape
      rw [GameState.advance_day, hday] at hok
      have h1 : gs' = { gs with
          current_day := DayVal.num (n + 1)
          notebook_pages := gs.notebook_pages ++ [⟨DayVal.num (n + 1), []⟩] } := by
        have := Option.some.inj (congrArg Except.toOption hok)
        exact (congrArg Prod.fst this).symm
      refine ⟨n + 1, by omega, Or.inl ⟨?_, ?_⟩⟩
      · rw [h1]
        simp only [List.map_append]
        rw [hmap]
        simp [daysList]
      · rw [h1]
        show DayVal.num ((n : Int) + 1) = DayVal.num ((n + 1 : Nat) : Int)
        norm_cast
    · obtain ⟨_, hday⟩ := hshape
      rw [GameState.advance_day, hday] at hok
      cases hok
  | createFinal hr ih =>
    next gs =>
    obtain ⟨n, hn, hshape | hshape⟩ := ih
    · obtain ⟨hmap, hday⟩ := hshape
      have hnofin : gs.notebook_pages.any (fun p => p.day == DayVal.final) = false := by
        rw [List.any_eq_false]
        intro p hp
        have : p.day ∈ gs.notebook_pages.map Page.day := List.mem_map_of_mem Page.day hp
        rw [hmap] at this
        simp only [beq_iff_eq]
        intro hfin
        exact daysList_no_final n (hfin ▸ this)
      refine ⟨n, hn, Or.inr ⟨?_, ?_⟩⟩
      · simp [GameState.create_final_page, hnofin, hmap]
      · simp [GameState.create_final_page, hnofin]
    · obtain ⟨hmap, hday⟩ := hshape
      have hfin : gs.notebook_pages.any (fun p => p.day == DayVal.final) = true := by
        rw [List.any_eq_true]
        have : DayVal.final ∈ gs.notebook_pages.map Page.day := by
          rw [hmap]; simp
        obtain ⟨p, hp, hpd⟩ := List.mem_map.1 this
        exact ⟨p, hp, by simp [hpd]⟩
      refine ⟨n, hn, Or.inr ⟨?_, ?_⟩⟩
      · simp [GameState.create_final_page, hfin, hmap]
      · simp [GameState.create_final_page, hfin, hday]
  | update c hr ih =>
    next gs =>
    obtain ⟨n, hn, hshape | hshape⟩ := ih
    · obtain ⟨hmap, hday⟩ := hshape
      refine ⟨n, hn, Or.inl ⟨?_, ?_⟩⟩
      · unfold GameState.update_current_page
        rw [apply_ite (fun g : GameState => g.notebook_pages.map Page.day)]
        simp [updateFirstMatch_day_map, updateLast_day_map, hmap]
      · unfold GameState.update_current_page
        rw [apply_ite GameState.current_day]
        simp [hday]
    · obtain ⟨hmap, hday⟩ := hshape
      refine ⟨n, hn, Or.inr ⟨?_, ?_⟩⟩
      · unfold GameState.update_current_page
        rw [apply_ite (fun g : GameState => g.notebook_pages.map Page.day)]
        simp [updateFirstMatch_day_map, updateLast_day_map, hmap]
      · unfold GameState.update_current_page
        rw [apply_ite GameState.current_day]
        simp [hday]
  | reset hr ih =>
    exact ⟨1, le_refl 1, Or.inl ⟨rfl, rfl⟩⟩
  | setFlags b w i c hr ih =>
    obtain ⟨n, hn, hshape | hshape⟩ := ih
    · exact ⟨n, hn, Or.inl hshape⟩
    · exact ⟨n, hn, Or.inr hshape⟩

theorem daysShape_get_current_page {gs : GameState} (h : DaysShape gs) :
    (GameState.get_current_page gs).day = gs.current_day ∧ NotebookInv gs := by
  obtain ⟨n, hn, hshape | hshape⟩ := h
  · obtain ⟨hmap, hday⟩ := hshape
    have hmem : DayVal.num n ∈ gs.notebook_pages.map Page.day := by
      rw [hmap]; exact num_mem_daysList hn
    obtain ⟨p0, hp0, hp0d⟩ := List.mem_map.1 hmem
    have hex : ∃ x ∈ gs.notebook_pages, pageMatches gs.current_day x = true :=
      ⟨p0, hp0, by simp [pageMatches, hp0d, hday]⟩
    have hfind : (gs.notebook_pages.find? (pageMatches gs.current_day)).isSome := by
      rw [List.find?_isSome]; exact hex
    obtain ⟨pf, hpf⟩ := Option.isSome_iff_exists.1 hfind
    have hpfmem : pf ∈ gs.notebook_pages := List.mem_of_find?_eq_some hpf
    have hpfmatch : pageMatches gs.current_day pf = true := List.find?_some hpf
    have hpfday : pf.day = gs.current_day := by
      simp only [pageMatches, Bool.or_eq_true, beq_iff_eq] at hpfmatch
      rcases hpfmatch with hp | hp
      · exact hp
      · exfalso
        have hmm : pf.day ∈ gs.notebook_pages.map Page.day :=
          List.mem_map_of_mem Page.day hpfmem
        rw [hmap, hp] at hmm
        exact daysList_no_final n hmm
    refine ⟨?_, ?_, ⟨p0, hp0, by rw [hp0d, hday]⟩⟩
    · simp only [GameState.get_current_page, hpf]
      exact hpfday
    · intro hnil
      rw [hnil] at hmap
      have := daysList_length n
      rw [← hmap] at this
      simp at this
      omega
  · obtain ⟨hmap, hday⟩ := hshape
    have hmem : DayVal.final ∈ gs.notebook_pages.map Page.day := by
      rw [hmap]; simp
    obtain ⟨p0, hp0, hp0d⟩ := List.mem_map.1 hmem
    have hex : ∃ x ∈ gs.notebook_pages, pageMatches gs.current_day x = true :=
      ⟨p0, hp0, by simp [pageMatches, hp0d, hday]⟩
    have hfind : (gs.notebook_pages.find? (pageMatches gs.current_day)).isSome := by
      rw [List.find?_isSome]; exact hex
    obtain ⟨pf, hpf⟩ := Option.isSome_iff_exists.1 hfind
    have hpfmatch : pageMatches gs.current_day pf = true := List.find?_some hpf
    have hpfday : pf.day = gs.current_day := by
      simp only [pageMatches, Bool.or_eq_true, beq_iff_eq] at hpfmatch
      rcases hpfmatch with hp | hp
      · exact hp
      · rw [hp, hday]
    refine ⟨?_, ?_, ⟨p0, hp0, by rw [hp0d, hday]⟩⟩
    · simp only [GameState.get_current_page, hpf]
      exact hpfday
    · intro hnil
      rw [hnil] at hmap
      simp at hmap

/-- C8: the GameState notebook invariant: the page list is non-empty and
holds a page for the current day.  It holds after `__init__` and `reset`;
`advance_day` (which increments the day by 1 and appends a blank page for
the new day) establishes it again; `create_final_page` preserves it,
appending at most one Final page and setting the current day to Final only
when none exists yet; and on every reachable state `get_current_page`
returns the page for the current day, never its not-found fallback. -/
theorem game_state_day_page_invariant :
    NotebookInv GameState.initial ∧
    (∀ gs : GameState, NotebookInv (GameState.reset gs)) ∧
    (∀ (gs gs' : GameState) (d : Int),
      GameState.advance_day gs = .ok (gs', d) → NotebookInv gs') ∧
    (∀ (gs gs' : GameState) (d n : Int), gs.current_day = DayVal.num n →
      GameState.advance_day gs = .ok (gs', d) →
      d = n + 1 ∧ gs'.current_day = DayVal.num (n + 1) ∧
      gs'.notebook_pages = gs.notebook_pages ++ [⟨DayVal.num (n + 1), []⟩]) ∧
    (∀ gs : GameState, NotebookInv gs → NotebookInv (GameState.create_final_page gs)) ∧
    (∀ gs : GameState, (∃ p ∈ gs.notebook_pages, p.day = DayVal.final) →
      GameState.create_final_page gs = gs) ∧
    (∀ gs : GameState, ReachableGS gs →
      (GameState.get_current_page gs).day = gs.current_day ∧ NotebookInv gs) := by
  refine ⟨?_, ?_, ?_, ?_, ?_, ?_, ?_⟩
  · exact ⟨by simp [GameState.initial], ⟨DayVal.num 1, []⟩, by simp [GameState.initial]⟩
  · intro gs
    exact ⟨by simp [GameState.reset], ⟨DayVal.num 1, []⟩, by simp [GameState.reset]⟩
  · intro gs gs' d hok
    cases hday : gs.current_day with
    | final => rw [GameState.advance_day, hday] at hok; cases hok
    | num n =>
      rw [GameState.advance_day, hday] at hok
      have h1 := Option.some.inj (congrArg Except.toOption hok)
      have hgs : gs' = { gs with
          current_day := DayVal.num (n + 1)
          notebook_pages := gs.notebook_pages ++ [⟨DayVal.num (n + 1), []⟩] } :=
        (congrArg Prod.fst h1).symm
      subst hgs
      exact ⟨by simp, ⟨DayVal.num (n + 1), []⟩, by simp⟩
  · intro gs gs' d n hday hok
    rw [GameState.advance_day, hday] at hok
    have h1 := Option.some.inj (congrArg Except.toOption hok)
    have hgs : gs' = { gs with
        current_day := DayVal.num (n + 1)
        notebook_pages := gs.notebook_pages ++ [⟨DayVal.num (n + 1), []⟩] } :=
      (congrArg Prod.fst h1).symm
    have hd : d = n + 1 := (congrArg Prod.snd h1).symm
    subst hgs
    exact ⟨hd, rfl, rfl⟩
  · intro gs hinv
    by_cases hfin : gs.notebook_pages.any (fun p => p.day == DayVal.final)
    · simpa [GameState.create_final_page, hfin] using hinv
    · refine ⟨by simp [GameState.create_final_page, hfin], ⟨DayVal.final, []⟩, ?_⟩
      simp [GameState.create_final_page, hfin]
  · intro gs hex
    have hfin : gs.notebook_pages.any (fun p => p.day == DayVal.final) = true := by
      rw [List.any_eq_true]
      obtain ⟨p, hp, hpd⟩ := hex
      exact ⟨p, hp, by simp [hpd]⟩
    simp [GameState.create_final_page, hfin]
  · intro gs hr
    exact daysShape_get_current_page (reachable_daysShape hr)

theorem game_state_day_page_invariant_witness :
    (GameState.get_current_page GameState.initial).day =
      GameState.initial.current_day ∧ NotebookInv GameState.initial :=
  game_state_day_page_invariant.2.2.2.2.2.2 GameState.initial ReachableGS.init
